import Mathlib

/-!
Verification of the scheduling and buffer-management core of the NVENC
hardware-encoder adapter (libavcodec/nvenc.c).

The development shallowly embeds the C source: the growable ring queue
(`NvencDataList` with `data_queue_enqueue` / `data_queue_dequeue`), the
decode-timestamp derivation of `process_output_surface`, the session-open
function `nvenc_encode_init`, and the per-call submission/retrieval engine
`nvenc_encode_frame`.  External collaborators (the NVENC driver, CUDA, host
allocation) are modeled by oracles recording the outcome of each call.
Machine integers are modeled by `Nat`/`Int`; the one place where uint32
wraparound matters in normal operation, the ring-queue read position
`(pos - count) & mask`, is rendered as `(pos + size - count) & mask`, which
agrees with the uint32 computation whenever `size` is a power of two not
exceeding `2 ^ 32`, `pos < size` and `count ≤ size` (see
`uint32_read_pos_eq`).
-/

/-- Errno value used by AVERROR(ENOMEM). -/
def ENOMEM : Int := 12

/-- Errno value used by AVERROR(EINVAL). -/
def EINVAL : Int := 22

/-- FFmpeg AVERROR macro: negated errno. -/
def AVERROR (e : Int) : Int := -e

/-- FFmpeg AVERROR_EXTERNAL, the negated tag value of MKTAG('E','X','T',' '). -/
def AVERROR_EXTERNAL : Int := -542398533

/-- FFmpeg AV_NOPTS_VALUE = INT64_MIN, the "unset timestamp" sentinel. -/
def AV_NOPTS_VALUE : Int := -9223372036854775808

/-- NvencDataList (nvenc.c lines 88-95): a growable ring queue.  `data` is the
backing buffer (the C `NvencData*` array; the union payload is the type
parameter), `pos` the write index, `count` the number of live entries and
`size` the capacity. -/
structure NvencDataList (α : Type) where
  data : List α
  pos : Nat
  count : Nat
  size : Nat
  deriving DecidableEq, Repr

namespace NvencDataList

/-- Index of the oldest live entry: `(pos - count) & (size - 1)` of the C
source, written with the uint32 wraparound made explicit. -/
def readBase (q : NvencDataList α) : Nat :=
  (q.pos + q.size - q.count) % q.size

/-- Abstraction function: the live entries of the ring, oldest first. -/
def toList [Inhabited α] (q : NvencDataList α) : List α :=
  (List.range q.count).map (fun i => q.data.getD ((q.readBase + i) % q.size) default)

/-- Well-formedness of an allocated queue: the capacity is a power of two of
at least 4 (the C code starts at 4 and only doubles), the backing buffer has
exactly `size` cells, the write index is in range and the queue is not
over-full. -/
def WFA (q : NvencDataList α) : Prop :=
  (∃ k, 2 ≤ k ∧ q.size = 2 ^ k) ∧ q.data.length = q.size ∧ q.pos < q.size ∧ q.count ≤ q.size

/-- Well-formedness of any reachable queue state: either the zero-initialized
never-allocated state (`data == NULL`, all counters 0) or an allocated state. -/
def WF (q : NvencDataList α) : Prop :=
  (q.size = 0 ∧ q.pos = 0 ∧ q.count = 0 ∧ q.data = []) ∨ q.WFA

theorem WFA.size_pos {q : NvencDataList α} (h : q.WFA) : 0 < q.size := by
  obtain ⟨⟨k, _, hs⟩, _⟩ := h
  rw [hs]
  exact Nat.pos_pow_of_pos k (by decide)

theorem WFA.land_mask {q : NvencDataList α} (h : q.WFA) (x : Nat) :
    x &&& (q.size - 1) = x % q.size := by
  obtain ⟨⟨k, _, hs⟩, _⟩ := h
  rw [hs]
  exact Nat.and_pow_two_sub_one_eq_mod x k

theorem toList_length [Inhabited α] (q : NvencDataList α) : q.toList.length = q.count := by
  simp [toList]

theorem toList_eq_nil [Inhabited α] {q : NvencDataList α} (h : q.count = 0) : q.toList = [] := by
  simp [toList, h]

theorem toList_ne_nil [Inhabited α] {q : NvencDataList α} (h : q.count ≠ 0) : q.toList ≠ [] := by
  intro hcon
  have hl := toList_length q
  rw [hcon] at hl
  exact h hl.symm

end NvencDataList

/-- The uint32 read-position computation `(pos - count) & (size - 1)` of
`data_queue_dequeue` agrees with the `(pos + size - count) & (size - 1)` form
used in this embedding, for every power-of-two capacity `2 ^ k` with
`k ≤ 32` and `count ≤ 2 ^ k` (uint32 subtraction is addition of `2 ^ 32`
followed by reduction mod `2 ^ 32`). -/
theorem uint32_read_pos_eq (pos count k : Nat) (hk : k ≤ 32) (hcount : count ≤ 2 ^ k) :
    ((pos + 2 ^ 32 - count) % 2 ^ 32) &&& (2 ^ k - 1) = (pos + 2 ^ k - count) &&& (2 ^ k - 1) := by
  rw [Nat.and_pow_two_sub_one_eq_mod, Nat.and_pow_two_sub_one_eq_mod]
  have hdvd : 2 ^ k ∣ 2 ^ 32 := Nat.pow_dvd_pow 2 hk
  rw [Nat.mod_mod_of_dvd _ hdvd]
  obtain ⟨c, hc⟩ := hdvd
  have hc1 : 1 ≤ c := by
    rcases Nat.eq_zero_or_pos c with h0 | h1
    · rw [h0, Nat.mul_zero] at hc
      exact absurd hc (by positivity)
    · exact h1
  have key : pos + 2 ^ 32 - count = (pos + 2 ^ k - count) + 2 ^ k * (c - 1) := by
    have hsplit : 2 ^ k * c = 2 ^ k + 2 ^ k * (c - 1) := by
      cases c with
      | zero => omega
      | succ m =>
        rw [Nat.mul_succ, Nat.succ_sub_one]
        exact Nat.add_comm _ _
    have hA : 0 < 2 ^ k := Nat.pos_pow_of_pos k (by decide)
    rw [hc, hsplit]
    omega
  rw [key, Nat.add_mul_mod_self_left]

/-- data_queue_dequeue (nvenc.c lines 214-232).  The three `av_assert0`
guards (non-NULL queue, non-zero size, non-NULL data) are modeled by the
outer `Option`; `none` is an assertion failure, which aborts the process.
On an empty queue the C function returns NULL, modeled as `some (none, q)`;
otherwise it returns a pointer to the oldest entry and decrements `count`.
The slot is read immediately by every caller, so the pointer is modeled by
the value it points to. -/
def data_queue_dequeue [Inhabited α] (q : NvencDataList α) :
    Option (Option α × NvencDataList α) :=
  if q.size = 0 ∨ q.data.length = 0 then none
  else if q.count = 0 then some (none, q)
  else
    let mask := q.size - 1
    let read_pos := (q.pos + q.size - q.count) &&& mask
    some (some (q.data.getD read_pos default), { q with count := q.count - 1 })

/-- The unconditional tail of data_queue_enqueue (nvenc.c lines 270-276):
store at the write index, advance it with the bit mask, bump the count. -/
def enqueue_raw [Inhabited α] (q : NvencDataList α) (x : α) : NvencDataList α :=
  let mask := q.size - 1
  { q with data := q.data.set q.pos x
         , pos := (q.pos + 1) &&& mask
         , count := q.count + 1 }

/-- The reinsertion loop of the growth branch (nvenc.c lines 263-264):
`while (tmp_data = data_queue_dequeue(queue)) data_queue_enqueue(&new_queue, tmp_data)`.
The loop runs exactly `count` times; during it the new queue is allocated and
never full (its capacity is double the drained queue's), so each recursive
`data_queue_enqueue` call reduces to the plain insert `enqueue_raw`. -/
def drain_into [Inhabited α] : Nat → NvencDataList α → NvencDataList α → NvencDataList α
  | 0, _, nq => nq
  | n + 1, oq, nq =>
    match data_queue_dequeue oq with
    | some (some v, oq') => drain_into n oq' (enqueue_raw nq v)
    | _ => nq

/-- data_queue_enqueue (nvenc.c lines 234-277).  `allocOk` records whether the
`av_malloc` performed by this call (the lazy initial allocation of capacity 4,
or the doubling allocation when full) succeeds; at most one allocation happens
per call.  On the failed initial allocation the C code has already cleared
`pos` and `count` and resets `size` to 0, leaving `data` NULL; on a failed
doubling allocation the queue is returned untouched. -/
def data_queue_enqueue [Inhabited α] (allocOk : Bool) (q : NvencDataList α) (x : α) :
    Int × NvencDataList α :=
  if q.size = 0 then
    if allocOk then
      (0, enqueue_raw { data := List.replicate 4 default, pos := 0, count := 0, size := 4 } x)
    else
      (AVERROR ENOMEM, { q with pos := 0, count := 0, size := 0 })
  else if q.count = q.size then
    if allocOk then
      let fresh : NvencDataList α :=
        { data := List.replicate (2 * q.size) default, pos := 0, count := 0, size := 2 * q.size }
      (0, enqueue_raw (drain_into q.count q fresh) x)
    else
      (AVERROR ENOMEM, q)
  else
    (0, enqueue_raw q x)

/-- out_surf_queue_enqueue (nvenc.c lines 279-285); the queue payload is the
output-surface index. -/
def out_surf_queue_enqueue (allocOk : Bool) (q : NvencDataList Nat) (j : Nat) :
    Int × NvencDataList Nat :=
  data_queue_enqueue allocOk q j

/-- out_surf_queue_dequeue (nvenc.c lines 287-295). -/
def out_surf_queue_dequeue (q : NvencDataList Nat) :
    Option (Option Nat × NvencDataList Nat) :=
  data_queue_dequeue q

/-- timestamp_queue_enqueue (nvenc.c lines 297-303). -/
def timestamp_queue_enqueue (allocOk : Bool) (q : NvencDataList Int) (t : Int) :
    Int × NvencDataList Int :=
  data_queue_enqueue allocOk q t

/-- timestamp_queue_dequeue (nvenc.c lines 305-313): an empty queue yields the
AV_NOPTS_VALUE sentinel. -/
def timestamp_queue_dequeue (q : NvencDataList Int) :
    Option (Int × NvencDataList Int) :=
  match data_queue_dequeue q with
  | none => none
  | some (res, q') => some ((match res with | none => AV_NOPTS_VALUE | some t => t), q')

/-- Repeated dequeuing, used to state that an empty queue keeps answering
with the sentinel; `none` propagates an assertion failure. -/
def dequeue_iter [Inhabited α] : Nat → NvencDataList α → Option (NvencDataList α)
  | 0, q => some q
  | n + 1, q =>
    match data_queue_dequeue q with
    | none => none
    | some (_, q') => dequeue_iter n q'

theorem list_eq_headD_cons_tail {β : Type} (d : β) {l : List β} (h : l ≠ []) :
    l = l.headD d :: l.tail := by
  cases l with
  | nil => exact absurd rfl h
  | cons a t => rfl

theorem getD_set_ne {β : Type} (l : List β) {i j : Nat} (h : i ≠ j) (v d : β) :
    (l.set i v).getD j d = l.getD j d := by
  show ((l.set i v).get? j).getD d = (l.get? j).getD d
  rw [List.get?_set_ne v l h]

theorem getD_set_self {β : Type} (l : List β) {i : Nat} (h : i < l.length) (v d : β) :
    (l.set i v).getD i d = v := by
  show ((l.set i v).get? i).getD d = v
  rw [List.get?_set_eq_of_lt v h]
  rfl

theorem mod_add_ne_self {P y S : Nat} (hP : P < S) (hy0 : 0 < y) (hyS : y < S) :
    (P + y) % S ≠ P := by
  intro h
  rcases Nat.lt_or_ge (P + y) S with h1 | h1
  · rw [Nat.mod_eq_of_lt h1] at h
    omega
  · rw [Nat.mod_eq_sub_mod h1] at h
    have h2 : P + y - S < S := by omega
    rw [Nat.mod_eq_of_lt h2] at h
    omega

/-- Dequeuing a well-formed allocated queue with `count = 0` returns the
no-value sentinel and leaves the queue untouched. -/
theorem dequeue_of_count_zero [Inhabited α] {q : NvencDataList α} (hw : q.WFA) (hc : q.count = 0) :
    data_queue_dequeue q = some (none, q) := by
  have h1 : q.size ≠ 0 := hw.size_pos.ne'
  have h2 : q.data.length ≠ 0 := by
    rw [hw.2.1]
    exact h1
  simp [data_queue_dequeue, h1, h2, hc]

/-- Dequeuing a well-formed allocated queue with `count ≠ 0` returns the
oldest live entry and pops it. -/
theorem dequeue_of_count_pos [Inhabited α] {q : NvencDataList α} (hw : q.WFA) (hc : q.count ≠ 0) :
    data_queue_dequeue q =
      some (some (q.toList.headD default), { q with count := q.count - 1 }) ∧
    ({ q with count := q.count - 1 } : NvencDataList α).toList = q.toList.tail ∧
    ({ q with count := q.count - 1 } : NvencDataList α).WFA := by
  obtain ⟨hpow, hlen, hpos, hcnt⟩ := hw
  have hS : 0 < q.size := NvencDataList.WFA.size_pos ⟨hpow, hlen, hpos, hcnt⟩
  have h1 : q.size ≠ 0 := hS.ne'
  have h2 : q.data.length ≠ 0 := by
    rw [hlen]
    exact h1
  obtain ⟨m, hm⟩ : ∃ m, q.count = m + 1 := ⟨q.count - 1, by omega⟩
  have hmS : m + 1 ≤ q.size := hm ▸ hcnt
  refine ⟨?_, ?_, ⟨hpow, hlen, hpos, by show q.count - 1 ≤ q.size; omega⟩⟩
  · -- the returned value is the head of the abstraction list
    have hcond1 : ¬(q.size = 0 ∨ q.data.length = 0) := by
      push_neg
      exact ⟨h1, h2⟩
    have hrb : q.readBase < q.size := Nat.mod_lt _ hS
    have hread : (q.pos + q.size - q.count) &&& (q.size - 1) = q.readBase := by
      rw [NvencDataList.WFA.land_mask ⟨hpow, hlen, hpos, hcnt⟩]
      rfl
    have hhead : q.toList.headD default = q.data.getD q.readBase default := by
      rw [NvencDataList.toList, hm, List.range_succ_eq_map]
      simp [Nat.mod_eq_of_lt hrb]
    simp only [data_queue_dequeue, if_neg hcond1, if_neg hc]
    rw [hread, hhead]
  · -- the remaining entries are the tail of the abstraction list
    have htail : q.toList.tail =
        (List.range m).map
          (fun i => q.data.getD ((q.readBase + (i + 1)) % q.size) default) := by
      rw [NvencDataList.toList, hm, List.range_succ_eq_map]
      simp [List.map_map]
    have hL : ({ q with count := q.count - 1 } : NvencDataList α).toList
        = (List.range m).map
            (fun i => q.data.getD (((q.pos + q.size - m) % q.size + i) % q.size) default) := by
      dsimp only [NvencDataList.toList, NvencDataList.readBase]
      simp only [hm, Nat.add_sub_cancel]
    rw [hL, htail]
    refine List.map_congr_left ?_
    intro i _
    congr 1
    rw [Nat.mod_add_mod]
    dsimp only [NvencDataList.readBase]
    rw [Nat.mod_add_mod, hm]
    congr 1
    omega

/-- Inserting into a well-formed allocated non-full queue with `enqueue_raw`
appends the value to the abstraction list. -/
theorem enqueue_raw_spec [Inhabited α] {q : NvencDataList α} (hw : q.WFA) (hc : q.count < q.size)
    (x : α) :
    (enqueue_raw q x).WFA ∧ (enqueue_raw q x).toList = q.toList ++ [x] := by
  obtain ⟨hpow, hlen, hpos, hcnt⟩ := hw
  have hS : 0 < q.size := NvencDataList.WFA.size_pos ⟨hpow, hlen, hpos, hcnt⟩
  have hmask : (q.pos + 1) &&& (q.size - 1) = (q.pos + 1) % q.size :=
    NvencDataList.WFA.land_mask ⟨hpow, hlen, hpos, hcnt⟩ _
  have hpos' : (q.pos + 1) % q.size < q.size := Nat.mod_lt _ hS
  constructor
  · refine ⟨hpow, ?_, ?_, ?_⟩
    · show (q.data.set q.pos x).length = q.size
      rw [List.length_set, hlen]
    · show ((q.pos + 1) &&& (q.size - 1)) < q.size
      rw [hmask]
      exact hpos'
    · show q.count + 1 ≤ q.size
      omega
  · have hbase2 : (((q.pos + 1) &&& (q.size - 1)) + q.size - (q.count + 1)) % q.size
        = (q.pos + q.size - q.count) % q.size := by
      rw [hmask]
      have h1 : (q.pos + 1) % q.size + q.size - (q.count + 1)
          = (q.pos + 1) % q.size + (q.size - (q.count + 1)) := by omega
      rw [h1, Nat.mod_add_mod]
      congr 1
      omega
    have hwrite : ((q.pos + q.size - q.count) % q.size + q.count) % q.size = q.pos := by
      rw [Nat.mod_add_mod]
      have h1 : q.pos + q.size - q.count + q.count = q.pos + q.size := by omega
      rw [h1, Nat.add_mod_right, Nat.mod_eq_of_lt hpos]
    have hkeep : ∀ i, i < q.count →
        ((q.pos + q.size - q.count) % q.size + i) % q.size ≠ q.pos := by
      intro i hi
      have h1 : ((q.pos + q.size - q.count) % q.size + i) % q.size
          = (q.pos + (q.size - q.count + i)) % q.size := by
        rw [Nat.mod_add_mod]
        congr 1
        omega
      rw [h1]
      exact mod_add_ne_self hpos (by omega) (by omega)
    dsimp only [NvencDataList.toList, enqueue_raw, NvencDataList.readBase]
    simp only [hbase2]
    rw [List.range_succ, List.map_append]
    congr 1
    · refine List.map_congr_left ?_
      intro i hi
      exact getD_set_ne q.data (Ne.symm (hkeep i (List.mem_range.mp hi))) x default
    · simp only [List.map_cons, List.map_nil]
      rw [hwrite]
      rw [getD_set_self q.data (by omega : q.pos < q.data.length) x default]

/-- The growth reinsertion loop moves the drained queue's entries onto the
end of the target queue in FIFO order. -/
theorem drain_into_spec [Inhabited α] :
    ∀ (n : Nat) (a b : NvencDataList α), a.WFA → b.WFA → a.count = n →
      b.count + n ≤ b.size →
      (drain_into n a b).WFA ∧
      (drain_into n a b).toList = b.toList ++ a.toList ∧
      (drain_into n a b).size = b.size ∧
      (drain_into n a b).count = b.count + n := by
  intro n
  induction n with
  | zero =>
    intro a b _ hwb hc _
    simp [drain_into, NvencDataList.toList_eq_nil hc, hwb]
  | succ m ih =>
    intro a b hwa hwb hc hle
    obtain ⟨hdeq, htail, hwa'⟩ := dequeue_of_count_pos hwa (by omega)
    obtain ⟨hwb', hb'⟩ := enqueue_raw_spec hwb (by omega) (a.toList.headD default)
    have hcount' : ({ a with count := a.count - 1 } : NvencDataList α).count = m := by
      show a.count - 1 = m
      omega
    have hble : (enqueue_raw b (a.toList.headD default)).count + m
        ≤ (enqueue_raw b (a.toList.headD default)).size := by
      show b.count + 1 + m ≤ b.size
      omega
    obtain ⟨ih1, ih2, ih3, ih4⟩ := ih _ _ hwa' hwb' hcount' hble
    have hstep : drain_into (m + 1) a b
        = drain_into m { a with count := a.count - 1 } (enqueue_raw b (a.toList.headD default)) := by
      simp only [drain_into, hdeq]
    refine ⟨hstep ▸ ih1, ?_, ?_, ?_⟩
    · rw [hstep, ih2, hb', htail, List.append_assoc, List.singleton_append]
      rw [← list_eq_headD_cons_tail default (NvencDataList.toList_ne_nil (by omega))]
    · rw [hstep, ih3]
      rfl
    · rw [hstep, ih4]
      show b.count + 1 + m = b.count + (m + 1)
      omega

/-- data_queue_enqueue with a successful allocation appends the value to the
abstraction list (covering the lazy initial allocation, the plain insert and
the capacity-doubling growth path) and returns 0. -/
theorem data_queue_enqueue_spec [Inhabited α] {q : NvencDataList α} (hw : q.WF) (x : α) :
    (data_queue_enqueue true q x).1 = 0 ∧
    (data_queue_enqueue true q x).2.WFA ∧
    (data_queue_enqueue true q x).2.toList = q.toList ++ [x] := by
  rcases hw with ⟨hs, hp, hc, hd⟩ | hwa
  · -- never-allocated queue: lazy init to capacity 4, then plain insert
    have hfresh : (⟨List.replicate 4 default, 0, 0, 4⟩ : NvencDataList α).WFA :=
      ⟨⟨2, by decide, rfl⟩, by simp, by show (0:Nat) < 4; decide, by show (0:Nat) ≤ 4; decide⟩
    obtain ⟨hw', ht'⟩ := enqueue_raw_spec hfresh (by show (0:Nat) < 4; decide) x
    have hstep : data_queue_enqueue true q x
        = (0, enqueue_raw ⟨List.replicate 4 default, 0, 0, 4⟩ x) := by
      simp [data_queue_enqueue, hs]
    rw [hstep]
    refine ⟨rfl, hw', ?_⟩
    rw [ht', NvencDataList.toList_eq_nil hc]
    rfl
  · have hS : 0 < q.size := hwa.size_pos
    have hcntq : q.count ≤ q.size := hwa.2.2.2
    by_cases hfull : q.count = q.size
    · -- capacity-doubling growth, then plain insert
      obtain ⟨k, hk2, hSk⟩ := hwa.1
      have hfresh2 : (⟨List.replicate (2 * q.size) default, 0, 0, 2 * q.size⟩ :
          NvencDataList α).WFA := by
        refine ⟨⟨k + 1, by omega, by show 2 * q.size = 2 ^ (k + 1); rw [hSk]; ring⟩,
          by simp, by show 0 < 2 * q.size; omega, by show (0:Nat) ≤ 2 * q.size; omega⟩
      have hdle : (⟨List.replicate (2 * q.size) default, 0, 0, 2 * q.size⟩ :
          NvencDataList α).count + q.count
          ≤ (⟨List.replicate (2 * q.size) default, 0, 0, 2 * q.size⟩ :
          NvencDataList α).size := by
        show 0 + q.count ≤ 2 * q.size
        omega
      obtain ⟨hwd, htd, hsd, hcd⟩ := drain_into_spec q.count q _ hwa hfresh2 rfl hdle
      have hlt : (drain_into q.count q
          (⟨List.replicate (2 * q.size) default, 0, 0, 2 * q.size⟩ : NvencDataList α)).count
          < (drain_into q.count q
          (⟨List.replicate (2 * q.size) default, 0, 0, 2 * q.size⟩ : NvencDataList α)).size := by
        rw [hcd, hsd]
        show 0 + q.count < 2 * q.size
        omega
      obtain ⟨hw', ht'⟩ := enqueue_raw_spec hwd hlt x
      have hstep : data_queue_enqueue true q x
          = (0, enqueue_raw (drain_into q.count q
              ⟨List.replicate (2 * q.size) default, 0, 0, 2 * q.size⟩) x) := by
        simp [data_queue_enqueue, hS.ne', hfull]
      rw [hstep]
      refine ⟨rfl, hw', ?_⟩
      rw [ht', htd, NvencDataList.toList_eq_nil (by rfl), List.nil_append]
    · -- plain insert
      obtain ⟨hw', ht'⟩ := enqueue_raw_spec hwa (by omega) x
      have hstep : data_queue_enqueue true q x = (0, enqueue_raw q x) := by
        simp [data_queue_enqueue, hS.ne', hfull]
      rw [hstep]
      exact ⟨rfl, hw', ht'⟩

/-- C7: dequeuing a ring queue whose count is zero returns the no-value
sentinel (NULL element for the surface instantiation, AV_NOPTS_VALUE for the
timestamp instantiation), leaves the queue unchanged with its count still
zero, keeps answering with the sentinel on every subsequent dequeue until an
enqueue occurs, and never decrements the count below zero.  The
`av_assert0(queue->size)` and `av_assert0(queue->data)` guards of the C
function are the allocated-queue well-formedness hypothesis. -/
theorem c7_empty_dequeue_sentinel :
    (∀ q : NvencDataList Nat, q.WFA → q.count = 0 →
      out_surf_queue_dequeue q = some (none, q) ∧ ∀ n, dequeue_iter n q = some q) ∧
    (∀ q : NvencDataList Int, q.WFA → q.count = 0 →
      timestamp_queue_dequeue q = some (AV_NOPTS_VALUE, q) ∧ ∀ n, dequeue_iter n q = some q) := by
  have hiter : ∀ (α : Type) (inst : Inhabited α) (q : NvencDataList α),
      data_queue_dequeue q = some (none, q) → ∀ n, dequeue_iter n q = some q := by
    intro α inst q hfix n
    induction n with
    | zero => rfl
    | succ m ih =>
      simp only [dequeue_iter, hfix]
      exact ih
  constructor
  · intro q hw hc
    have hfix := dequeue_of_count_zero hw hc
    exact ⟨hfix, hiter Nat _ q hfix⟩
  · intro q hw hc
    have hfix := dequeue_of_count_zero hw hc
    refine ⟨?_, hiter Int _ q hfix⟩
    simp only [timestamp_queue_dequeue, hfix]

/-- Witness for C7 at the concrete empty queues of capacity 4. -/
theorem c7_witness :
    (out_surf_queue_dequeue ⟨[0, 0, 0, 0], 0, 0, 4⟩
        = some (none, (⟨[0, 0, 0, 0], 0, 0, 4⟩ : NvencDataList Nat)) ∧
      ∀ n, dequeue_iter n (⟨[0, 0, 0, 0], 0, 0, 4⟩ : NvencDataList Nat)
        = some ⟨[0, 0, 0, 0], 0, 0, 4⟩) ∧
    (timestamp_queue_dequeue ⟨[0, 0, 0, 0], 0, 0, 4⟩
        = some (AV_NOPTS_VALUE, (⟨[0, 0, 0, 0], 0, 0, 4⟩ : NvencDataList Int)) ∧
      ∀ n, dequeue_iter n (⟨[0, 0, 0, 0], 0, 0, 4⟩ : NvencDataList Int)
        = some ⟨[0, 0, 0, 0], 0, 0, 4⟩) :=
  ⟨c7_empty_dequeue_sentinel.1 _ ⟨⟨2, by decide, rfl⟩, by decide, by decide, by decide⟩ rfl,
   c7_empty_dequeue_sentinel.2 _ ⟨⟨2, by decide, rfl⟩, by decide, by decide, by decide⟩ rfl⟩

/-- C8: an enqueue whose host allocation fails (the lazy initial allocation
when `size = 0`, or the doubling allocation when the queue is full) returns
AVERROR(ENOMEM) and leaves the queue state exactly as it was before the
call. -/
theorem c8_failed_enqueue_preserves_state {α : Type} [Inhabited α] {q : NvencDataList α}
    (hw : q.WF) (hfail : q.size = 0 ∨ q.count = q.size) (x : α) :
    data_queue_enqueue false q x = (AVERROR ENOMEM, q) := by
  rcases hw with ⟨hs, hp, hc, hd⟩ | hwa
  · have hq : ({ q with pos := 0, count := 0, size := 0 } : NvencDataList α) = q := by
      cases q
      simp_all
    simp [data_queue_enqueue, hs, hq]
  · have hS := hwa.size_pos
    rcases hfail with h0 | hfull
    · exact absurd h0 hS.ne'
    · simp [data_queue_enqueue, hS.ne', hfull]

/-- Witness for C8 at a concrete full queue of capacity 4. -/
theorem c8_witness :
    data_queue_enqueue false (⟨[5, 6, 7, 8], 0, 4, 4⟩ : NvencDataList Int) 9
      = (AVERROR ENOMEM, ⟨[5, 6, 7, 8], 0, 4, 4⟩) :=
  c8_failed_enqueue_preserves_state
    (Or.inr ⟨⟨2, by decide, rfl⟩, by decide, by decide, by decide⟩) (Or.inr rfl) 9

/-- An enqueue or dequeue request made of a ring queue. -/
inductive QOp (α : Type) where
  | enq : α → QOp α
  | deq : QOp α
  deriving DecidableEq, Repr

/-- The values enqueued by a request sequence, in order. -/
def enqValues {α : Type} : List (QOp α) → List α
  | [] => []
  | QOp.enq x :: ops => x :: enqValues ops
  | QOp.deq :: ops => enqValues ops

/-- Run a sequence of enqueue and dequeue requests against a queue, with all
host allocations succeeding, collecting the successfully dequeued values in
order.  `none` propagates an assertion failure (dequeue of a never-allocated
queue). -/
def runOps [Inhabited α] : List (QOp α) → NvencDataList α → Option (List α × NvencDataList α)
  | [], q => some ([], q)
  | QOp.enq x :: ops, q =>
    let r := data_queue_enqueue true q x
    if r.1 = 0 then runOps ops r.2 else none
  | QOp.deq :: ops, q =>
    match data_queue_dequeue q with
    | none => none
    | some (v, q') =>
      match runOps ops q' with
      | none => none
      | some (outs, qf) => some (v.toList ++ outs, qf)

/-- Generalized FIFO invariant: starting from any well-formed queue, the
dequeued values followed by the remaining live entries equal the initial
live entries followed by the enqueued values. -/
theorem runOps_fifo [Inhabited α] :
    ∀ (ops : List (QOp α)) (q : NvencDataList α), q.WF →
      ∀ outs qf, runOps ops q = some (outs, qf) →
        outs ++ qf.toList = q.toList ++ enqValues ops ∧ qf.WF := by
  intro ops
  induction ops with
  | nil =>
    intro q hw outs qf h
    simp only [runOps, Option.some.injEq, Prod.mk.injEq] at h
    obtain ⟨h1, h2⟩ := h
    subst h1
    subst h2
    simpa [enqValues] using hw
  | cons op rest ih =>
    intro q hw outs qf h
    cases op with
    | enq x =>
      obtain ⟨hres, hwq', ht'⟩ := data_queue_enqueue_spec hw x
      simp only [runOps, hres, if_true] at h
      obtain ⟨ihe, ihw⟩ := ih _ (Or.inr hwq') outs qf h
      refine ⟨?_, ihw⟩
      rw [ihe, ht']
      simp [enqValues]
    | deq =>
      rcases hw with ⟨hs, hp, hc, hd⟩ | hwa
      · have habort : data_queue_dequeue q = none := by
          simp [data_queue_dequeue, hs]
        simp only [runOps, habort] at h
        exact Option.noConfusion h
      · by_cases hc0 : q.count = 0
        · have hfix := dequeue_of_count_zero hwa hc0
          simp only [runOps, hfix] at h
          cases hrr : runOps rest q with
          | none =>
            rw [hrr] at h
            exact Option.noConfusion h
          | some p =>
            obtain ⟨outs', qf'⟩ := p
            rw [hrr] at h
            simp only [Option.toList, List.nil_append, Option.some.injEq, Prod.mk.injEq] at h
            obtain ⟨h1, h2⟩ := h
            subst h1
            subst h2
            obtain ⟨ihe, ihw⟩ := ih q (Or.inr hwa) _ _ hrr
            refine ⟨?_, ihw⟩
            rw [ihe]
            simp [enqValues]
        · obtain ⟨hdeq, htail, hwa'⟩ := dequeue_of_count_pos hwa hc0
          simp only [runOps, hdeq] at h
          cases hrr : runOps rest { q with count := q.count - 1 } with
          | none =>
            rw [hrr] at h
            exact Option.noConfusion h
          | some p =>
            obtain ⟨outs', qf'⟩ := p
            rw [hrr] at h
            simp only [Option.toList, List.singleton_append, Option.some.injEq,
              Prod.mk.injEq] at h
            obtain ⟨h1, h2⟩ := h
            subst h1
            subst h2
            obtain ⟨ihe, ihw⟩ := ih _ (Or.inr hwa') _ _ hrr
            refine ⟨?_, ihw⟩
            rw [htail] at ihe
            conv_rhs => rw [list_eq_headD_cons_tail default (NvencDataList.toList_ne_nil hc0)]
            simp only [enqValues, List.cons_append]
            rw [ihe]

/-- C3: for every sequence of enqueue and dequeue operations started on the
zero-initialized queue, with all host allocations succeeding, the values
dequeued followed by the entries still stored equal the enqueued values in
order (FIFO) — including sequences in which an enqueue into a full queue
triggers the capacity-doubling growth that reinserts all existing entries
into the new buffer. -/
theorem c3_fifo_order {α : Type} [Inhabited α] (ops : List (QOp α)) (outs : List α)
    (qf : NvencDataList α) (h : runOps ops ⟨[], 0, 0, 0⟩ = some (outs, qf)) :
    outs ++ qf.toList = enqValues ops := by
  have hres := runOps_fifo ops ⟨[], 0, 0, 0⟩ (Or.inl ⟨rfl, rfl, rfl, rfl⟩) outs qf h
  simpa [NvencDataList.toList_eq_nil] using hres.1

/-- Witness for C3: a 12-operation run whose sixth enqueue finds the queue
full (capacity 4) and triggers the growth to capacity 8. -/
theorem c3_witness :
    [(10 : Int), 20, 30, 40, 50, 60]
        ++ (⟨[20, 30, 40, 50, 60, 0, 0, 0], 5, 0, 8⟩ : NvencDataList Int).toList
      = enqValues
          [QOp.enq 10, QOp.enq 20, QOp.deq, QOp.enq 30, QOp.enq 40, QOp.enq 50, QOp.enq 60,
           QOp.deq, QOp.deq, QOp.deq, QOp.deq, QOp.deq] :=
  c3_fifo_order _ _ _ (by decide)

/-- Codec selected for the session; the AVCodec entries register only H264
and HEVC, so the `default:` branches of the codec switches are
unreachable. -/
inductive Codec where
  | h264
  | hevc
  deriving DecidableEq, Repr

/-- Picture type reported by nvEncLockBitstream; `unknown` stands for any
value outside the five handled cases and triggers the error path. -/
inductive NvPicType where
  | idr
  | ipic
  | ppic
  | bpic
  | bipic
  | unknown
  deriving DecidableEq, Repr

/-- Outcomes of the external calls made by one process_output_surface call:
the `av_mallocz` of the slice-offset array, nvEncLockBitstream (with the
output timestamp it reports), ff_alloc_packet2, and the reported picture
type.  The nvEncUnlockBitstream result only produces a log line and is not
modeled. -/
structure POOracle where
  sliceAllocOk : Bool
  lockOk : Bool
  outputTimeStamp : Int
  allocPacketOk : Bool
  picType : NvPicType
  deriving DecidableEq, Repr

/-- The packet fields process_output_surface fills in (the payload bytes are
an opaque copy of the device buffer and are not modeled). -/
structure Pkt where
  pts : Int
  dts : Int
  keyFlag : Bool
  deriving DecidableEq, Repr

/-- The slice of NvencContext read and written by process_output_surface. -/
structure POState where
  timestamp_list : NvencDataList Int
  last_dts : Int
  deriving DecidableEq, Repr

/-- Decode-timestamp B-frame offset (nvenc.c lines 1114-1116): when
`frameIntervalP >= 2`, subtract 1 from the popped timestamp. -/
def dts_b_frame_offset (frameIntervalP dts : Int) : Int :=
  if frameIntervalP ≥ 2 then dts - 1 else dts

/-- Decode-timestamp clamp (nvenc.c lines 1118-1119): dts must not exceed
pts. -/
def dts_clamp_to_pts (pts dts : Int) : Int :=
  if dts > pts then pts else dts

/-- Decode-timestamp monotonic bump (nvenc.c lines 1121-1122): if a previous
dts was recorded and the computed dts does not exceed it, force last + 1. -/
def dts_force_monotonic (last_dts dts : Int) : Int :=
  if last_dts ≠ AV_NOPTS_VALUE ∧ dts ≤ last_dts then last_dts + 1 else dts

/-- The `error:` label of process_output_surface (nvenc.c lines 1130-1135):
free the slice offsets, pop (and discard) one timestamp, return `res`.
`none` propagates the assertion abort of the queue dequeue. -/
def process_output_error (res : Int) (s : POState) : Option (Int × Option Pkt × POState) :=
  match timestamp_queue_dequeue s.timestamp_list with
  | none => none
  | some (_, ts') => some (res, none, { s with timestamp_list := ts' })

/-- process_output_surface (nvenc.c lines 1026-1136).  Returns the C result
code, the produced packet (`none` when no packet was filled in), and the
updated timestamp list / last_dts.  The failed `av_mallocz` of the slice
offsets returns AVERROR(ENOMEM) directly, before any timestamp is popped;
every later failure goes through the `error:` label, which pops one
timestamp.  On success the oldest pushed presentation timestamp is popped,
offset for B-frame reordering, clamped to the packet's pts and bumped to stay
strictly monotonic; packets of IDR pictures carry the key flag. -/
def process_output_surface (o : POOracle) (frameIntervalP : Int) (s : POState) :
    Option (Int × Option Pkt × POState) :=
  if ¬ o.sliceAllocOk then some (AVERROR ENOMEM, none, s)
  else if ¬ o.lockOk then process_output_error AVERROR_EXTERNAL s
  else if ¬ o.allocPacketOk then process_output_error (AVERROR ENOMEM) s
  else if o.picType = NvPicType.unknown then process_output_error AVERROR_EXTERNAL s
  else
    match timestamp_queue_dequeue s.timestamp_list with
    | none => none
    | some (dts0, ts') =>
      let pts := o.outputTimeStamp
      let dts1 := dts_b_frame_offset frameIntervalP dts0
      let dts2 := dts_clamp_to_pts pts dts1
      let dts3 := dts_force_monotonic s.last_dts dts2
      some (0, some { pts := pts, dts := dts3, keyFlag := o.picType == NvPicType.idr },
            { timestamp_list := ts', last_dts := dts3 })

theorem process_output_error_no_pkt {res : Int} {s : POState} {r : Int} {p : Option Pkt}
    {s' : POState} (h : process_output_error res s = some (r, p, s')) : p = none := by
  unfold process_output_error at h
  cases hts : timestamp_queue_dequeue s.timestamp_list with
  | none =>
    rw [hts] at h
    exact Option.noConfusion h
  | some pr =>
    obtain ⟨a, b⟩ := pr
    rw [hts] at h
    simp only [Option.some.injEq, Prod.mk.injEq] at h
    exact h.2.1.symm

/-- C2 counterexample: with frameIntervalP = 2 (so B-frame reordering is
configured) a single successful retrieval emits dts = -1 for a packet whose
pts is -5: the forced-monotonic bump runs after the pts clamp, so the emitted
decode timestamp exceeds the presentation timestamp of the same packet,
refuting the claim that every emitted dts is ≤ its packet's pts. -/
theorem c2_counterexample :
    process_output_surface ⟨true, true, -5, true, NvPicType.ppic⟩ 2
        ⟨⟨[0, 0, 0, 0], 1, 1, 4⟩, -2⟩
      = some (0, some ⟨-5, -1, false⟩, ⟨⟨[0, 0, 0, 0], 1, 0, 4⟩, -1⟩) ∧
    ((-1 : Int) > -5 ∧ (2 : Int) ≥ 2) :=
  ⟨by decide, by decide⟩

/-- C2 (amended): when frameIntervalP >= 2 and a previous decode timestamp is
recorded (as the -2 baseline from session open guarantees), every packet
produced by process_output_surface carries a decode timestamp strictly above
the previously emitted one (so emitted decode timestamps strictly increase
call-over-call), and that timestamp is ≤ the packet's presentation timestamp
except when the monotonic bump fires, in which case it equals the previous
decode timestamp + 1 and may exceed the presentation timestamp. -/
theorem c2_dts_monotone_amended (o : POOracle) (frameIntervalP : Int) (s : POState)
    (pkt : Pkt) (res : Int) (s' : POState)
    (h : process_output_surface o frameIntervalP s = some (res, some pkt, s'))
    (hfip : frameIntervalP ≥ 2) (hlast : s.last_dts ≠ AV_NOPTS_VALUE) :
    s.last_dts < pkt.dts ∧ s'.last_dts = pkt.dts ∧
      (pkt.dts ≤ pkt.pts ∨ pkt.dts = s.last_dts + 1) := by
  by_cases h1 : o.sliceAllocOk
  case neg =>
    simp [process_output_surface, h1] at h
  case pos =>
  by_cases h2 : o.lockOk
  case neg =>
    have hstep : process_output_surface o frameIntervalP s
        = process_output_error AVERROR_EXTERNAL s := by
      simp [process_output_surface, h1, h2]
    rw [hstep] at h
    exact Option.noConfusion (process_output_error_no_pkt h)
  case pos =>
  by_cases h3 : o.allocPacketOk
  case neg =>
    have hstep : process_output_surface o frameIntervalP s
        = process_output_error (AVERROR ENOMEM) s := by
      simp [process_output_surface, h1, h2, h3]
    rw [hstep] at h
    exact Option.noConfusion (process_output_error_no_pkt h)
  case pos =>
  by_cases h4 : o.picType = NvPicType.unknown
  case pos =>
    have hstep : process_output_surface o frameIntervalP s
        = process_output_error AVERROR_EXTERNAL s := by
      simp [process_output_surface, h1, h2, h3, h4]
    rw [hstep] at h
    exact Option.noConfusion (process_output_error_no_pkt h)
  case neg =>
  cases hts : timestamp_queue_dequeue s.timestamp_list with
  | none =>
    simp [process_output_surface, h1, h2, h3, h4, hts] at h
  | some pr =>
    obtain ⟨dts0, ts'⟩ := pr
    have hstep : process_output_surface o frameIntervalP s
        = some (0, some { pts := o.outputTimeStamp,
                          dts := dts_force_monotonic s.last_dts
                            (dts_clamp_to_pts o.outputTimeStamp
                              (dts_b_frame_offset frameIntervalP dts0)),
                          keyFlag := o.picType == NvPicType.idr },
                { timestamp_list := ts',
                  last_dts := dts_force_monotonic s.last_dts
                    (dts_clamp_to_pts o.outputTimeStamp
                      (dts_b_frame_offset frameIntervalP dts0)) }) := by
      simp [process_output_surface, h1, h2, h3, h4, hts]
    rw [hstep] at h
    simp only [Option.some.injEq, Prod.mk.injEq] at h
    obtain ⟨hres, hpkt, hs'⟩ := h
    have hdts : pkt.dts = dts_force_monotonic s.last_dts
        (dts_clamp_to_pts o.outputTimeStamp (dts_b_frame_offset frameIntervalP dts0)) := by
      rw [← hpkt]
    have hpts : pkt.pts = o.outputTimeStamp := by
      rw [← hpkt]
    refine ⟨?_, ?_, ?_⟩
    · rw [hdts]
      unfold dts_force_monotonic
      split
      · omega
      · next hcond =>
        push_neg at hcond
        exact lt_of_not_le (fun hle => absurd (hcond hlast) (not_lt_of_le hle))
    · rw [← hs', hdts]
    · rw [hdts, hpts]
      unfold dts_force_monotonic
      split
      · next hcond => exact Or.inr rfl
      · unfold dts_clamp_to_pts
        split
        · exact Or.inl le_rfl
        · next hcond => exact Or.inl (le_of_not_lt hcond)

/-- Witness for C2 (amended) at a concrete retrieval: popped timestamp 7,
pts 10, frameIntervalP 2, last_dts -2 gives dts 6. -/
theorem c2_amended_witness :
    (⟨⟨[7, 0, 0, 0], 1, 1, 4⟩, -2⟩ : POState).last_dts < (⟨10, 6, false⟩ : Pkt).dts ∧
    (⟨⟨[7, 0, 0, 0], 1, 0, 4⟩, 6⟩ : POState).last_dts = (⟨10, 6, false⟩ : Pkt).dts ∧
    ((⟨10, 6, false⟩ : Pkt).dts ≤ (⟨10, 6, false⟩ : Pkt).pts ∨
      (⟨10, 6, false⟩ : Pkt).dts = (⟨⟨[7, 0, 0, 0], 1, 1, 4⟩, -2⟩ : POState).last_dts + 1) :=
  c2_dts_monotone_amended ⟨true, true, 10, true, NvPicType.ppic⟩ 2
    ⟨⟨[7, 0, 0, 0], 1, 1, 4⟩, -2⟩ ⟨10, 6, false⟩ 0 ⟨⟨[7, 0, 0, 0], 1, 0, 4⟩, 6⟩
    (by decide) (by decide) (by decide)

/-- Input pixel format of the session; only NV12 and YUV420P are accepted by
the surface-allocation switch. -/
inductive PixFmt where
  | yuv420p
  | nv12
  | other
  deriving DecidableEq, Repr

/-- The AVCodecContext / option fields nvenc_encode_init reads.  Fields that
only populate the opaque device configuration blob (bitrate, QP bounds,
color description, aspect ratio, interlacing, AQ) are omitted: they are
written unconditionally and cannot change control flow or the fields the
claims are about. -/
structure AVCtx where
  width : Nat
  height : Nat
  codec : Codec
  gop_size : Int
  max_b_frames : Int
  global_header : Bool
  pix_fmt : PixFmt
  preset : Option String
  profile : Option String
  level : Option String
  tier : Option String
  twopass : Int
  buffer_delay : Int
  deriving DecidableEq, Repr

/-- Outcomes of the external calls made by nvenc_encode_init, in call order:
driver load (nvenc_dyload_nvenc, covering the CUDA check, dlopen and
NvEncodeAPICreateInstance), CUDA context creation, nvEncOpenEncodeSessionEx,
nvEncGetEncodePresetConfig (with the frameIntervalP the preset supplies),
nvEncInitializeEncoder, the two host allocations for the surface arrays, the
per-surface nvEncRegisterResource and nvEncCreateBitstreamBuffer calls,
nvEncGetSequenceParams, the extradata host allocation, and
ff_add_cpb_side_data.  The cu_module_load_data / cu_mem_alloc_pitch results
are not checked by the C code. -/
structure InitOracle where
  dyloadOk : Bool
  cuCtxOk : Bool
  openSessionOk : Bool
  presetCfgOk : Bool
  presetFrameIntervalP : Int
  initEncoderOk : Bool
  inputAllocOk : Bool
  outputAllocOk : Bool
  registerOk : Nat → Bool
  createBitstreamOk : Nat → Bool
  seqParamsOk : Bool
  extradataAllocOk : Bool
  cpbPropsOk : Bool

/-- The NvencContext fields established by nvenc_encode_init that the claims
concern, plus a ledger of the device resources currently held: `surfaceCount`
is the loop counter of the allocation loop (used by the error unwind),
`registeredLive` / `dptrLive` / `bitstreamLive` count registered resources,
device-memory allocations and bitstream buffers not yet released. -/
structure InitState where
  last_dts : Int
  frameIntervalP : Int
  max_surface_count : Nat
  buffer_delay : Int
  twopass : Int
  nvencoderAlive : Bool
  cuContextAlive : Bool
  nvencLoaded : Bool
  surfaceCount : Nat
  registeredLive : Nat
  dptrLive : Nat
  bitstreamLive : Nat
  transferAllocated : Bool
  extradataSet : Bool
  deriving DecidableEq, Repr

/-- Result of nvenc_encode_init: the returned code and the context state. -/
structure InitResult where
  res : Int
  ctx : InitState
  deriving DecidableEq, Repr

/-- The `error:` label of nvenc_encode_init (lines 971-991): unregister and
free the device memory of the first `surfaceCount` input surfaces, destroy
their non-NULL bitstream buffers, free the transfer surface, destroy the
encoder, release the CUDA context and unload the driver.  The device-memory
allocation of a surface whose registration failed is not freed (its slot was
never counted by `surfaceCount`), which the `dptrLive` ledger records. -/
def nvenc_init_goto_error (res : Int) (st : InitState) : InitResult :=
  { res := res
  , ctx := { st with
      nvencoderAlive := false
    , cuContextAlive := false
    , nvencLoaded := false
    , registeredLive := st.registeredLive - st.surfaceCount
    , dptrLive := st.dptrLive - st.surfaceCount - (if st.transferAllocated then 1 else 0)
    , bitstreamLive := 0 } }

/-- A plain return from nvenc_encode_init (no unwind). -/
def mkInitResult (res : Int) (st : InitState) : InitResult :=
  { res := res, ctx := st }

/-- The preset if-chain (nvenc.c lines 475-513): the two-pass override the
preset forces (`some`), the low-latency flag and the lossless flag; `none`
for an unknown preset name (fatal EINVAL). -/
def nvenc_parse_preset (p : Option String) : Option (Option Int × Bool × Bool) :=
  match p with
  | none => some (none, false, false)
  | some s =>
    if s == "slow" then some (some 1, false, false)
    else if s == "medium" then some (some 0, false, false)
    else if s == "fast" then some (some 0, false, false)
    else if s == "hq" then some (none, false, false)
    else if s == "hp" then some (none, false, false)
    else if s == "bd" then some (none, false, false)
    else if s == "ll" then some (none, true, false)
    else if s == "llhp" then some (none, true, false)
    else if s == "llhq" then some (none, true, false)
    else if s == "lossless" then some (none, false, true)
    else if s == "losslesshp" then some (none, false, true)
    else if s == "default" then some (none, false, false)
    else none

/-- The level strings accepted by nvenc_h264_level_pairs (lines 151-176). -/
def nvenc_h264_level_strings : List String :=
  ["auto", "1", "1.0", "1b", "1.0b", "1.1", "1.2", "1.3", "2", "2.0", "2.1", "2.2",
   "3", "3.0", "3.1", "3.2", "4", "4.0", "4.1", "4.2", "5", "5.0", "5.1"]

/-- The level strings accepted by nvenc_hevc_level_pairs (lines 178-200). -/
def nvenc_hevc_level_strings : List String :=
  ["auto", "1", "1.0", "2", "2.0", "2.1", "3", "3.0", "3.1", "4", "4.0", "4.1",
   "5", "5.0", "5.1", "5.2", "6", "6.0", "6.1", "6.2"]

/-- The per-surface allocation loop (nvenc.c lines 872-927), iterated
`max_surface_count` times.  Each iteration checks the pixel format, performs
the (unchecked) cu_mem_alloc_pitch, registers the surface, and creates its
bitstream buffer; on a bitstream-buffer failure the slot's output pointer is
set to NULL and `surfaceCount` is still incremented, so the unwind covers the
registered input of that slot. -/
def nvenc_surface_loop (o : InitOracle) (a : AVCtx) :
    Nat → InitState → Except (Int × InitState) InitState
  | 0, st => Except.ok st
  | n + 1, st =>
    if a.pix_fmt = PixFmt.other then Except.error (AVERROR EINVAL, st)
    else
      let st1 := { st with dptrLive := st.dptrLive + 1 }
      if ¬ o.registerOk st1.surfaceCount then Except.error (AVERROR_EXTERNAL, st1)
      else
        let st2 := { st1 with registeredLive := st1.registeredLive + 1 }
        if ¬ o.createBitstreamOk st2.surfaceCount then
          Except.error (AVERROR_EXTERNAL, { st2 with surfaceCount := st2.surfaceCount + 1 })
        else
          nvenc_surface_loop o a n
            { st2 with bitstreamLive := st2.bitstreamLive + 1
                     , surfaceCount := st2.surfaceCount + 1 }

/-- The tail of nvenc_encode_init after the global-header block
(lines 956-969): ff_add_cpb_side_data failure returns AVERROR(ENOMEM)
directly, with no unwind; otherwise the function returns 0. -/
def nvenc_init_finish (o : InitOracle) (st : InitState) : InitResult :=
  if ¬ o.cpbPropsOk then mkInitResult (AVERROR ENOMEM) st
  else mkInitResult 0 st

/-- The profile-string validation of the H264 branch (lines 752-784): an
explicit profile string must be high, main or baseline; with no string the
fallback switch only warns; HEVC hard-codes the main profile. -/
def nvenc_profile_ok (a : AVCtx) : Bool :=
  match a.codec, a.profile with
  | Codec.h264, some s => s == "high" || s == "main" || s == "baseline"
  | _, _ => true

/-- The level-string validation (lines 788-797 and 811-820). -/
def nvenc_level_ok (a : AVCtx) : Bool :=
  match a.level with
  | none => true
  | some s =>
    (match a.codec with
     | Codec.h264 => nvenc_h264_level_strings
     | Codec.hevc => nvenc_hevc_level_strings).contains s

/-- The tier-string validation of the HEVC branch (lines 822-832). -/
def nvenc_tier_ok (a : AVCtx) : Bool :=
  match a.codec, a.tier with
  | Codec.hevc, some s => s == "main" || s == "high"
  | _, _ => true

/-- nvenc_encode_init after the surface loop succeeded (lines 929-969): the
out-of-band sequence header when global headers are requested, then the CPB
side data.  When nvEncGetSequenceParams fails the C code jumps to the error
label without assigning `res`, which still holds 0 on that path. -/
def nvenc_init_after_surfaces (o : InitOracle) (a : AVCtx) (st' : InitState) : InitResult :=
  if a.global_header then
    if ¬ o.seqParamsOk then
      nvenc_init_goto_error 0 st'
    else if ¬ o.extradataAllocOk then nvenc_init_goto_error (AVERROR ENOMEM) st'
    else nvenc_init_finish o { st' with extradataSet := true }
  else nvenc_init_finish o st'

/-- nvenc_encode_init from the codec-specific profile/level/tier validation
(lines 735-836) to the end: encoder initialization, surface-array host
allocations, transfer-surface allocation (YUV420P only), the surface loop,
and the post-loop tail. -/
def nvenc_init_phase2 (o : InitOracle) (a : AVCtx) (st : InitState) : InitResult :=
  if ¬ nvenc_profile_ok a then nvenc_init_goto_error (AVERROR EINVAL) st
  else if ¬ nvenc_level_ok a then nvenc_init_goto_error (AVERROR EINVAL) st
  else if ¬ nvenc_tier_ok a then nvenc_init_goto_error (AVERROR EINVAL) st
  else if ¬ o.initEncoderOk then nvenc_init_goto_error AVERROR_EXTERNAL st
  else if ¬ o.inputAllocOk then nvenc_init_goto_error (AVERROR ENOMEM) st
  else if ¬ o.outputAllocOk then nvenc_init_goto_error (AVERROR ENOMEM) st
  else
    let st1 := if a.pix_fmt = PixFmt.yuv420p
      then { st with dptrLive := st.dptrLive + 1, transferAllocated := true }
      else st
    match nvenc_surface_loop o a st1.max_surface_count st1 with
    | Except.error (res, st') => nvenc_init_goto_error res st'
    | Except.ok st' => nvenc_init_after_surfaces o a st'

/-- nvenc_encode_init up to the GOP / dts-offset computation (lines 415-631):
driver load, CUDA context, encode session, preset resolution, preset
configuration query, surface-pool sizing, buffer-delay clamp, frameIntervalP
from the GOP options, and the last_dts baseline.  Returns the final
InitResult directly on the early failure paths. -/
def nvenc_init_phase1 (o : InitOracle) (a : AVCtx) : Except InitResult InitState :=
  let st0 : InitState :=
    { last_dts := 0, frameIntervalP := 0, max_surface_count := 0
    , buffer_delay := a.buffer_delay, twopass := a.twopass
    , nvencoderAlive := false, cuContextAlive := false, nvencLoaded := false
    , surfaceCount := 0, registeredLive := 0, dptrLive := 0, bitstreamLive := 0
    , transferAllocated := false, extradataSet := false }
  if ¬ o.dyloadOk then Except.error (mkInitResult AVERROR_EXTERNAL st0)
  else
    let st1 := { st0 with nvencLoaded := true, last_dts := AV_NOPTS_VALUE }
    if ¬ o.cuCtxOk then Except.error (nvenc_init_goto_error AVERROR_EXTERNAL st1)
    else
      let st2 := { st1 with cuContextAlive := true }
      if ¬ o.openSessionOk then Except.error (nvenc_init_goto_error AVERROR_EXTERNAL st2)
      else
        let st3 := { st2 with nvencoderAlive := true }
        match nvenc_parse_preset a.preset with
        | none => Except.error (nvenc_init_goto_error (AVERROR EINVAL) st3)
        | some (twOverride, isLL, _lossless) =>
          let tw1 := twOverride.getD st3.twopass
          let tw2 := if tw1 < 0 then (if isLL then 1 else 0) else tw1
          let st4 := { st3 with twopass := tw2 }
          if ¬ o.presetCfgOk then Except.error (nvenc_init_goto_error AVERROR_EXTERNAL st4)
          else
            let num_mbs := ((a.width + 15) >>> 4) * ((a.height + 15) >>> 4)
            let msc : Nat := if num_mbs ≥ 8160 then 32 else 48
            let bd := if a.buffer_delay ≥ (msc : Int) then (msc : Int) - 1 else a.buffer_delay
            let fIP :=
              if a.gop_size > 0
              then (if a.max_b_frames ≥ 0 then a.max_b_frames + 1 else o.presetFrameIntervalP)
              else if a.gop_size = 0 then 0 else o.presetFrameIntervalP
            let ld := if fIP ≥ 2 then (-2 : Int) else AV_NOPTS_VALUE
            Except.ok
              { st4 with max_surface_count := msc, buffer_delay := bd
                       , frameIntervalP := fIP, last_dts := ld }

/-- nvenc_encode_init (nvenc.c lines 415-992), as the composition of the two
phases. -/
def nvenc_encode_init (o : InitOracle) (a : AVCtx) : InitResult :=
  match nvenc_init_phase1 o a with
  | Except.error r => r
  | Except.ok st => nvenc_init_phase2 o a st

/-- The four context fields fixed by phase 1 that the claims are about. -/
def initKeyFields (st : InitState) : Int × Int × Nat × Int :=
  (st.last_dts, st.frameIntervalP, st.max_surface_count, st.buffer_delay)

/-- Key fields of a surface-loop outcome. -/
def exceptKey : Except (Int × InitState) InitState → Int × Int × Nat × Int
  | Except.error (_, st) => initKeyFields st
  | Except.ok st => initKeyFields st

/-- Key fields of an init result. -/
def resultKey (r : InitResult) : Int × Int × Nat × Int :=
  initKeyFields r.ctx

theorem nvenc_surface_loop_preserves (o : InitOracle) (a : AVCtx) :
    ∀ (n : Nat) (st : InitState),
      exceptKey (nvenc_surface_loop o a n st) = initKeyFields st := by
  intro n
  induction n with
  | zero =>
    intro st
    rfl
  | succ m ih =>
    intro st
    by_cases hpf : a.pix_fmt = PixFmt.other
    · simp [nvenc_surface_loop, hpf, exceptKey, initKeyFields]
    · by_cases hreg : o.registerOk st.surfaceCount
      · by_cases hbs : o.createBitstreamOk st.surfaceCount
        · have hstep : nvenc_surface_loop o a (m + 1) st
              = nvenc_surface_loop o a m
                  { st with dptrLive := st.dptrLive + 1
                          , registeredLive := st.registeredLive + 1
                          , bitstreamLive := st.bitstreamLive + 1
                          , surfaceCount := st.surfaceCount + 1 } := by
            simp [nvenc_surface_loop, hpf, hreg, hbs]
          rw [hstep, ih]
          rfl
        · simp [nvenc_surface_loop, hpf, hreg, hbs, exceptKey, initKeyFields]
      · simp [nvenc_surface_loop, hpf, hreg, exceptKey, initKeyFields]

theorem nvenc_init_after_surfaces_preserves (o : InitOracle) (a : AVCtx) (st' : InitState) :
    resultKey (nvenc_init_after_surfaces o a st') = initKeyFields st' := by
  unfold nvenc_init_after_surfaces nvenc_init_finish
  split
  · split
    · rfl
    · split
      · rfl
      · split
        · rfl
        · rfl
  · split
    · rfl
    · rfl

theorem nvenc_init_phase2_preserves (o : InitOracle) (a : AVCtx) (st : InitState) :
    resultKey (nvenc_init_phase2 o a st) = initKeyFields st := by
  have hgen : ∀ st1 : InitState, initKeyFields st1 = initKeyFields st →
      resultKey (match nvenc_surface_loop o a st1.max_surface_count st1 with
        | Except.error (res, st') => nvenc_init_goto_error res st'
        | Except.ok st' => nvenc_init_after_surfaces o a st') = initKeyFields st := by
    intro st1 h1
    cases hloop : nvenc_surface_loop o a st1.max_surface_count st1 with
    | error p =>
      obtain ⟨res, st'⟩ := p
      have hp := nvenc_surface_loop_preserves o a st1.max_surface_count st1
      rw [hloop] at hp
      simp only [exceptKey] at hp
      calc resultKey (nvenc_init_goto_error res st') = initKeyFields st' := rfl
        _ = initKeyFields st := by rw [hp, h1]
    | ok st' =>
      have hp := nvenc_surface_loop_preserves o a st1.max_surface_count st1
      rw [hloop] at hp
      simp only [exceptKey] at hp
      calc resultKey (nvenc_init_after_surfaces o a st')
          = initKeyFields st' := nvenc_init_after_surfaces_preserves o a st'
        _ = initKeyFields st := by rw [hp, h1]
  unfold nvenc_init_phase2
  split
  · rfl
  split
  · rfl
  split
  · rfl
  split
  · rfl
  split
  · rfl
  split
  · rfl
  exact hgen _ (by split <;> rfl)

theorem nvenc_init_phase1_error_res (o : InitOracle) (a : AVCtx) (r : InitResult)
    (h : nvenc_init_phase1 o a = Except.error r) : r.res ≠ 0 := by
  unfold nvenc_init_phase1 at h
  by_cases h1 : o.dyloadOk
  case neg =>
    simp [h1] at h
    rw [← h]
    show AVERROR_EXTERNAL ≠ 0
    decide
  case pos =>
  by_cases h2 : o.cuCtxOk
  case neg =>
    simp [h1, h2] at h
    rw [← h]
    show AVERROR_EXTERNAL ≠ 0
    decide
  case pos =>
  by_cases h3 : o.openSessionOk
  case neg =>
    simp [h1, h2, h3] at h
    rw [← h]
    show AVERROR_EXTERNAL ≠ 0
    decide
  case pos =>
  cases hpp : nvenc_parse_preset a.preset with
  | none =>
    simp [h1, h2, h3, hpp] at h
    rw [← h]
    show AVERROR EINVAL ≠ 0
    decide
  | some t =>
    obtain ⟨twOverride, isLL, lossless⟩ := t
    by_cases h4 : o.presetCfgOk
    case neg =>
      simp [h1, h2, h3, hpp, h4] at h
      rw [← h]
      show AVERROR_EXTERNAL ≠ 0
      decide
    case pos =>
      simp [h1, h2, h3, hpp, h4] at h

theorem nvenc_init_phase1_ok_fields (o : InitOracle) (a : AVCtx) (st : InitState)
    (h : nvenc_init_phase1 o a = Except.ok st) :
    st.max_surface_count
        = (if ((a.width + 15) >>> 4) * ((a.height + 15) >>> 4) ≥ 8160 then 32 else 48) ∧
    st.buffer_delay
        = (if a.buffer_delay ≥ (st.max_surface_count : Int)
           then (st.max_surface_count : Int) - 1 else a.buffer_delay) ∧
    st.last_dts = (if st.frameIntervalP ≥ 2 then -2 else AV_NOPTS_VALUE) := by
  unfold nvenc_init_phase1 at h
  by_cases h1 : o.dyloadOk
  case neg =>
    simp [h1] at h
  case pos =>
  by_cases h2 : o.cuCtxOk
  case neg =>
    simp [h1, h2] at h
  case pos =>
  by_cases h3 : o.openSessionOk
  case neg =>
    simp [h1, h2, h3] at h
  case pos =>
  cases hpp : nvenc_parse_preset a.preset with
  | none =>
    simp [h1, h2, h3, hpp] at h
  | some t =>
    obtain ⟨twOverride, isLL, lossless⟩ := t
    by_cases h4 : o.presetCfgOk
    case neg =>
      simp [h1, h2, h3, hpp, h4] at h
    case pos =>
      simp [h1, h2, h3, hpp, h4] at h
      rw [← h]
      refine ⟨rfl, ?_, rfl⟩
      by_cases hmb : 8160 ≤ ((a.width + 15) >>> 4) * ((a.height + 15) >>> 4)
      · simp [hmb]
      · simp [hmb]


/-- A successful nvenc_encode_init factors through a successful phase 1. -/
theorem nvenc_encode_init_ok_split (o : InitOracle) (a : AVCtx)
    (h : (nvenc_encode_init o a).res = 0) :
    ∃ st, nvenc_init_phase1 o a = Except.ok st ∧
      nvenc_encode_init o a = nvenc_init_phase2 o a st := by
  unfold nvenc_encode_init at h ⊢
  cases hp : nvenc_init_phase1 o a with
  | error r =>
    rw [hp] at h
    exact absurd h (nvenc_init_phase1_error_res o a r hp)
  | ok st => exact ⟨st, rfl, rfl⟩

/-- C9: for every session open that returns success, the surface pool
capacity is 32 when the macroblock count — (width+15)/16 rounded down times
(height+15)/16 rounded down — is at least 8160, and 48 otherwise
(nvenc.c lines 571-572). -/
theorem c9_surface_pool_capacity (o : InitOracle) (a : AVCtx)
    (h : (nvenc_encode_init o a).res = 0) :
    (nvenc_encode_init o a).ctx.max_surface_count
      = if ((a.width + 15) / 16) * ((a.height + 15) / 16) ≥ 8160 then 32 else 48 := by
  have hdiv : ∀ x : Nat, x >>> 4 = x / 16 := by
    intro x
    rw [Nat.shiftRight_eq_div_pow]
  obtain ⟨st, hp, heq⟩ := nvenc_encode_init_ok_split o a h
  rw [heq]
  obtain ⟨hmsc, _, _⟩ := nvenc_init_phase1_ok_fields o a st hp
  have hpres := nvenc_init_phase2_preserves o a st
  have hcomp := congrArg (fun t => t.2.2.1) hpres
  simp only [resultKey, initKeyFields] at hcomp
  rw [hcomp, hmsc, hdiv, hdiv]

/-- C10: for every session open that returns success with a delay option in
its declared range (≥ 0), the configured buffering delay ends up strictly
below the surface pool capacity: a caller-supplied delay of at least
max_surface_count is silently reduced to max_surface_count - 1
(nvenc.c lines 574-575; the option defaults to INT_MAX with range
[0, INT_MAX], line 1373). -/
theorem c10_buffer_delay_clamp (o : InitOracle) (a : AVCtx)
    (hopt : 0 ≤ a.buffer_delay)
    (h : (nvenc_encode_init o a).res = 0) :
    (nvenc_encode_init o a).ctx.buffer_delay
        < ((nvenc_encode_init o a).ctx.max_surface_count : Int) ∧
    (nvenc_encode_init o a).ctx.buffer_delay
      = (if a.buffer_delay ≥ ((nvenc_encode_init o a).ctx.max_surface_count : Int)
         then ((nvenc_encode_init o a).ctx.max_surface_count : Int) - 1
         else a.buffer_delay) := by
  obtain ⟨st, hp, heq⟩ := nvenc_encode_init_ok_split o a h
  rw [heq]
  obtain ⟨hmsc, hbd, _⟩ := nvenc_init_phase1_ok_fields o a st hp
  have hpres := nvenc_init_phase2_preserves o a st
  have hc1 := congrArg (fun t => t.2.2.1) hpres
  have hc2 := congrArg (fun t => t.2.2.2) hpres
  simp only [resultKey, initKeyFields] at hc1 hc2
  rw [hc1, hc2, hbd]
  have hpos : 0 < st.max_surface_count := by
    rw [hmsc]
    split <;> decide
  constructor
  · split <;> omega
  · rfl

/-- C4: on every successful retrieval, process_output_surface pops the
oldest pushed presentation timestamp (the FIFO head of the timestamp list),
and the emitted decode timestamp is the clamp/monotonic adjustment applied
to that popped value offset by exactly 1 when frameIntervalP >= 2 (and by 0
otherwise, see `dts_b_frame_offset`); and every session open that returns
success leaves the last-decode-timestamp baseline at -2 when the configured
frameIntervalP is >= 2 and at the AV_NOPTS_VALUE sentinel otherwise
(nvenc.c lines 1111-1116, 442, 629-631). -/
theorem c4_dts_pop_offset_and_baseline :
    (∀ (o : POOracle) (frameIntervalP : Int) (s : POState) (t : Int) (rest : List Int),
      s.timestamp_list.WFA → s.timestamp_list.toList = t :: rest →
      o.sliceAllocOk = true → o.lockOk = true → o.allocPacketOk = true →
      o.picType ≠ NvPicType.unknown →
      process_output_surface o frameIntervalP s
        = some (0,
            some { pts := o.outputTimeStamp
                 , dts := dts_force_monotonic s.last_dts
                     (dts_clamp_to_pts o.outputTimeStamp (dts_b_frame_offset frameIntervalP t))
                 , keyFlag := o.picType == NvPicType.idr },
            { timestamp_list := { s.timestamp_list with count := s.timestamp_list.count - 1 }
            , last_dts := dts_force_monotonic s.last_dts
                (dts_clamp_to_pts o.outputTimeStamp (dts_b_frame_offset frameIntervalP t)) }) ∧
      ({ s.timestamp_list with count := s.timestamp_list.count - 1 } :
          NvencDataList Int).toList = rest) ∧
    (∀ (o : InitOracle) (a : AVCtx), (nvenc_encode_init o a).res = 0 →
      (nvenc_encode_init o a).ctx.last_dts
        = (if (nvenc_encode_init o a).ctx.frameIntervalP ≥ 2 then -2 else AV_NOPTS_VALUE)) := by
  constructor
  · intro o fIP s t rest hwa htl h1 h2 h3 h4
    have hc0 : s.timestamp_list.count ≠ 0 := by
      intro hc
      rw [NvencDataList.toList_eq_nil hc] at htl
      exact List.noConfusion htl
    obtain ⟨hdeq, htail, _⟩ := dequeue_of_count_pos hwa hc0
    have hhd : s.timestamp_list.toList.headD default = t := by
      rw [htl]
      rfl
    have hts : timestamp_queue_dequeue s.timestamp_list
        = some (t, { s.timestamp_list with count := s.timestamp_list.count - 1 }) := by
      simp only [timestamp_queue_dequeue, hdeq, hhd]
    constructor
    · simp [process_output_surface, h1, h2, h3, h4, hts]
    · calc ({ s.timestamp_list with count := s.timestamp_list.count - 1 } :
            NvencDataList Int).toList
          = s.timestamp_list.toList.tail := htail
        _ = rest := by simp [htl]
  · intro o a h
    obtain ⟨st, hp, heq⟩ := nvenc_encode_init_ok_split o a h
    rw [heq]
    obtain ⟨_, _, hld⟩ := nvenc_init_phase1_ok_fields o a st hp
    have hpres := nvenc_init_phase2_preserves o a st
    have hc1 := congrArg (fun t => t.1) hpres
    have hc2 := congrArg (fun t => t.2.1) hpres
    simp only [resultKey, initKeyFields] at hc1 hc2
    rw [hc1, hc2, hld]

/-- Init oracle for the C6 failing input: every external call succeeds
except nvEncGetSequenceParams. -/
def c6_oracle : InitOracle :=
  { dyloadOk := true, cuCtxOk := true, openSessionOk := true, presetCfgOk := true
  , presetFrameIntervalP := 1, initEncoderOk := true, inputAllocOk := true
  , outputAllocOk := true, registerOk := fun _ => true, createBitstreamOk := fun _ => true
  , seqParamsOk := false, extradataAllocOk := true, cpbPropsOk := true }

/-- Codec context for the C6 failing input: a 1920x1088 H264 session with
global headers requested, default preset "hq" and an in-range delay. -/
def c6_avctx : AVCtx :=
  { width := 1920, height := 1088, codec := Codec.h264, gop_size := 30, max_b_frames := 0
  , global_header := true, pix_fmt := PixFmt.nv12, preset := some "hq", profile := none
  , level := none, tier := none, twopass := -1, buffer_delay := 0 }

/-- C6 evidence: when every negotiation step succeeds but the
sequence-header retrieval (nvEncGetSequenceParams) fails, nvenc_encode_init
jumps to its error label with `res` still 0 (the failure branch at
nvenc.c lines 939-943 never assigns `res`), tears the whole session down
(encoder destroyed, CUDA context released, driver unloaded) and then
returns 0 — success — to the caller, contradicting the claim that every
open-time failure returns a non-zero error code. -/
theorem c6_init_returns_success_after_seq_header_failure :
    (nvenc_encode_init c6_oracle c6_avctx).res = 0 ∧
    c6_oracle.seqParamsOk = false ∧
    c6_avctx.global_header = true ∧
    (nvenc_encode_init c6_oracle c6_avctx).ctx.nvencoderAlive = false ∧
    (nvenc_encode_init c6_oracle c6_avctx).ctx.cuContextAlive = false ∧
    (nvenc_encode_init c6_oracle c6_avctx).ctx.nvencLoaded = false ∧
    (nvenc_encode_init c6_oracle c6_avctx).ctx.registeredLive = 0 ∧
    (nvenc_encode_init c6_oracle c6_avctx).ctx.bitstreamLive = 0 := by
  refine ⟨by decide, rfl, rfl, by decide, by decide, by decide, by decide, by decide⟩

/-- Init oracle on which every external call succeeds. -/
def init_ok_oracle : InitOracle :=
  { dyloadOk := true, cuCtxOk := true, openSessionOk := true, presetCfgOk := true
  , presetFrameIntervalP := 1, initEncoderOk := true, inputAllocOk := true
  , outputAllocOk := true, registerOk := fun _ => true, createBitstreamOk := fun _ => true
  , seqParamsOk := true, extradataAllocOk := true, cpbPropsOk := true }

/-- A 1920x1088 session with in-band headers and a delay option of 100. -/
def init_ok_avctx : AVCtx :=
  { width := 1920, height := 1088, codec := Codec.h264, gop_size := 30, max_b_frames := 0
  , global_header := false, pix_fmt := PixFmt.nv12, preset := some "hq", profile := none
  , level := none, tier := none, twopass := -1, buffer_delay := 100 }

/-- Witness for C9 at the concrete 1920x1088 session. -/
theorem c9_witness :
    (nvenc_encode_init init_ok_oracle init_ok_avctx).ctx.max_surface_count
      = if ((init_ok_avctx.width + 15) / 16) * ((init_ok_avctx.height + 15) / 16) ≥ 8160
        then 32 else 48 :=
  c9_surface_pool_capacity init_ok_oracle init_ok_avctx (by decide)

/-- Witness for C10 at the concrete 1920x1088 session with delay option
100, which exceeds the capacity 32 and is clamped to 31. -/
theorem c10_witness :
    (nvenc_encode_init init_ok_oracle init_ok_avctx).ctx.buffer_delay
        < ((nvenc_encode_init init_ok_oracle init_ok_avctx).ctx.max_surface_count : Int) ∧
    (nvenc_encode_init init_ok_oracle init_ok_avctx).ctx.buffer_delay
      = (if init_ok_avctx.buffer_delay
            ≥ ((nvenc_encode_init init_ok_oracle init_ok_avctx).ctx.max_surface_count : Int)
         then ((nvenc_encode_init init_ok_oracle init_ok_avctx).ctx.max_surface_count : Int) - 1
         else init_ok_avctx.buffer_delay) :=
  c10_buffer_delay_clamp init_ok_oracle init_ok_avctx (by decide) (by decide)

/-- Witness for C4: a concrete retrieval popping timestamp 4 with
frameIntervalP 2, and the concrete 1920x1088 session open. -/
theorem c4_witness :
    (process_output_surface ⟨true, true, 9, true, NvPicType.ipic⟩ 2
        ⟨⟨[4, 0, 0, 0], 1, 1, 4⟩, -2⟩
      = some (0,
          some { pts := 9
               , dts := dts_force_monotonic (-2) (dts_clamp_to_pts 9 (dts_b_frame_offset 2 4))
               , keyFlag := false },
          { timestamp_list := ⟨[4, 0, 0, 0], 1, 0, 4⟩
          , last_dts := dts_force_monotonic (-2)
              (dts_clamp_to_pts 9 (dts_b_frame_offset 2 4)) }) ∧
      (⟨[4, 0, 0, 0], 1, 0, 4⟩ : NvencDataList Int).toList = []) ∧
    ((nvenc_encode_init init_ok_oracle init_ok_avctx).ctx.last_dts
      = if (nvenc_encode_init init_ok_oracle init_ok_avctx).ctx.frameIntervalP ≥ 2
        then -2 else AV_NOPTS_VALUE) :=
  ⟨c4_dts_pop_offset_and_baseline.1 ⟨true, true, 9, true, NvPicType.ipic⟩ 2
      ⟨⟨[4, 0, 0, 0], 1, 1, 4⟩, -2⟩ 4 []
      ⟨⟨2, by decide, rfl⟩, by decide, by decide, by decide⟩ (by decide)
      rfl rfl rfl (by decide),
   c4_dts_pop_offset_and_baseline.2 init_ok_oracle init_ok_avctx (by decide)⟩

/-- Result of nvEncEncodePicture as seen by nvenc_encode_frame: success,
NV_ENC_ERR_NEED_MORE_INPUT, or any other (fatal) status. -/
inductive EncStatus where
  | success
  | needMoreInput
  | otherError
  deriving DecidableEq, Repr

/-- Outcomes of the external calls made by one nvenc_encode_frame call:
nvEncMapInputResource, the mapped-format check, the pixel copy, the unmap,
the host allocation of the timestamp enqueue, nvEncEncodePicture, the host
allocations of the surface-queue enqueues performed this call (all succeed
or the first attempted one fails), and the process_output_surface oracle. -/
structure FrameOracle where
  mapOk : Bool
  fmtOk : Bool
  copyOk : Bool
  unmapOk : Bool
  tsAllocOk : Bool
  encStatus : EncStatus
  queueAllocOk : Bool
  po : POOracle
  deriving DecidableEq, Repr

/-- The NvencContext fields nvenc_encode_frame operates on: per-input-surface
lock counts, per-output-surface busy flags and input back-references (indices
into the input array), the in-flight queue (`output_surface_queue`), the
ready queue (`output_surface_ready_queue`), the timestamp list, and the
configuration established at open time. -/
structure EngineState where
  max_surface_count : Nat
  inputLocks : List Nat
  outBusy : List Bool
  outInputRef : List Nat
  output_surface_queue : NvencDataList Nat
  output_surface_ready_queue : NvencDataList Nat
  timestamp_list : NvencDataList Int
  last_dts : Int
  buffer_delay : Nat
  frameIntervalP : Int
  deriving DecidableEq, Repr

/-- Outcome of one nvenc_encode_frame call: an `av_assert0` abort, a return
that never writes `*got_packet` (`earlyRet`, carrying the C return code), or
a return through the emission gate with `got_packet` written. -/
inductive EncResult where
  | assertFail
  | earlyRet (code : Int) (s : EngineState)
  | done (got : Bool) (pkt : Option Pkt) (s : EngineState)
  deriving DecidableEq, Repr

/-- Whether the call emitted a packet; an early return leaves the caller's
zero-initialized got_packet in place. -/
def EncResult.gotPacket : EncResult → Bool
  | EncResult.done got _ _ => got
  | _ => false

/-- The linear scan for the first unlocked input surface
(nvenc.c lines 1211-1216). -/
def find_free_input (s : EngineState) : Option Nat :=
  (List.range s.max_surface_count).find? (fun i => s.inputLocks.getD i 0 == 0)

/-- The linear scan for the first non-busy output surface (lines 1248-1250). -/
def find_free_output (s : EngineState) : Option Nat :=
  (List.range s.max_surface_count).find? (fun i => s.outBusy.getD i true == false)

/-- Intermediate outcome of the submission and queue-maintenance phases. -/
inductive SubmitOut where
  | assertFail
  | early (code : Int) (s : EngineState)
  | go (cur : Option Nat) (s : EngineState)
  deriving DecidableEq, Repr

/-- The frame-submission phase of nvenc_encode_frame (lines 1207-1300):
acquire a free input surface (assertion failure when the pool is exhausted),
map it, check the format, copy the pixels, unmap, pick a free output surface
(fatal when none), record the input back-reference and push the frame's pts.
Map, format and copy failures return 0 without writing got_packet.  With no
frame, only the EOS flag is set.  `cur` is the output surface submitted this
call. -/
def nvenc_submit (o : FrameOracle) (frame : Option Int) (s : EngineState) : SubmitOut :=
  match frame with
  | none => SubmitOut.go none s
  | some pts =>
    match find_free_input s with
    | none => SubmitOut.assertFail
    | some i =>
      let s1 := { s with inputLocks := s.inputLocks.set i 1 }
      if ¬ o.mapOk then SubmitOut.early 0 s1
      else if ¬ o.fmtOk then SubmitOut.early 0 s1
      else if ¬ o.copyOk then SubmitOut.early 0 s1
      else if ¬ o.unmapOk then SubmitOut.early AVERROR_EXTERNAL s1
      else
        match find_free_output s1 with
        | none =>
          SubmitOut.early AVERROR_EXTERNAL { s1 with inputLocks := s1.inputLocks.set i 0 }
        | some j =>
          let s2 := { s1 with outInputRef := s1.outInputRef.set j i }
          let r := timestamp_queue_enqueue o.tsAllocOk s2.timestamp_list pts
          let s3 := { s2 with timestamp_list := r.2 }
          if r.1 ≠ 0 then SubmitOut.early r.1 s3
          else SubmitOut.go (some j) s3

/-- The `while (ctx->output_surface_queue.count)` drain loop
(lines 1319-1325), moving in-flight surfaces into the ready queue; the fuel
is the in-flight count.  A failed ready enqueue returns its code
immediately. -/
def drain_inflight (allocOk : Bool) :
    Nat → NvencDataList Nat → NvencDataList Nat →
    Option (Int × NvencDataList Nat × NvencDataList Nat)
  | 0, qin, qrdy => some (0, qin, qrdy)
  | fuel + 1, qin, qrdy =>
    if qin.count = 0 then some (0, qin, qrdy)
    else
      match out_surf_queue_dequeue qin with
      | none => none
      | some (none, _) => none
      | some (some j, qin') =>
        let r := out_surf_queue_enqueue allocOk qrdy j
        if r.1 ≠ 0 then some (r.1, qin', r.2)
        else drain_inflight allocOk fuel qin' r.2

/-- The queue-maintenance phase (lines 1302-1335): on NEED_MORE_INPUT with a
frame the submitted output surface joins the in-flight queue and is marked
busy; any other non-success status is fatal; on success the whole in-flight
queue is drained into the ready queue and the surface submitted this call
(if any) joins the ready queue and is marked busy. -/
def nvenc_queue_updates (o : FrameOracle) (cur : Option Nat) (s : EngineState) : SubmitOut :=
  match cur, o.encStatus with
  | some j, EncStatus.needMoreInput =>
    let r := out_surf_queue_enqueue o.queueAllocOk s.output_surface_queue j
    if r.1 ≠ 0 then SubmitOut.early r.1 { s with output_surface_queue := r.2 }
    else SubmitOut.go (some j)
      { s with output_surface_queue := r.2, outBusy := s.outBusy.set j true }
  | none, EncStatus.needMoreInput => SubmitOut.go none s
  | _, EncStatus.otherError => SubmitOut.early AVERROR_EXTERNAL s
  | _, EncStatus.success =>
    match drain_inflight o.queueAllocOk s.output_surface_queue.count
        s.output_surface_queue s.output_surface_ready_queue with
    | none => SubmitOut.assertFail
    | some (res, qin', qrdy') =>
      let s1 := { s with output_surface_queue := qin', output_surface_ready_queue := qrdy' }
      if res ≠ 0 then SubmitOut.early res s1
      else
        match cur with
        | some j =>
          let r2 := out_surf_queue_enqueue o.queueAllocOk s1.output_surface_ready_queue j
          if r2.1 ≠ 0 then
            SubmitOut.early r2.1 { s1 with output_surface_ready_queue := r2.2 }
          else SubmitOut.go (some j)
            { s1 with output_surface_ready_queue := r2.2, outBusy := s1.outBusy.set j true }
        | none => SubmitOut.go none s1

/-- The emission-gate condition of line 1337: the ready queue is non-empty
and (no frame was submitted this call, or ready.count + in_flight.count is
at least the configured buffering delay). -/
def emission_gate (hadFrame : Bool) (s : EngineState) : Bool :=
  (s.output_surface_ready_queue.count != 0)
    && (!hadFrame
        || decide (s.output_surface_ready_queue.count + s.output_surface_queue.count
              ≥ s.buffer_delay))

/-- The retrieval tail of nvenc_encode_frame (lines 1337-1352): when the
emission gate passes, pop the oldest ready surface, run
process_output_surface, clear the surface's busy flag, check and decrement
its input surface's lock count (`av_assert0(lockCount)`), and report a
packet; otherwise report no packet. -/
def nvenc_gate (o : FrameOracle) (hadFrame : Bool) (s : EngineState) : EncResult :=
  if emission_gate hadFrame s then
    match out_surf_queue_dequeue s.output_surface_ready_queue with
    | none => EncResult.assertFail
    | some (none, _) => EncResult.assertFail
    | some (some j, qrdy') =>
      let s1 := { s with output_surface_ready_queue := qrdy' }
      match process_output_surface o.po s1.frameIntervalP
          ⟨s1.timestamp_list, s1.last_dts⟩ with
      | none => EncResult.assertFail
      | some (res, pkt, ps) =>
        let s2 := { s1 with timestamp_list := ps.timestamp_list, last_dts := ps.last_dts }
        if res ≠ 0 then EncResult.earlyRet res s2
        else
          let s3 := { s2 with outBusy := s2.outBusy.set j false }
          let ref := s3.outInputRef.getD j 0
          if s3.inputLocks.getD ref 0 = 0 then EncResult.assertFail
          else EncResult.done true pkt
            { s3 with inputLocks := s3.inputLocks.set ref (s3.inputLocks.getD ref 0 - 1) }
  else EncResult.done false none s

/-- nvenc_encode_frame (nvenc.c lines 1193-1355), as the composition of the
submission phase, the queue-maintenance phase and the emission gate. -/
def nvenc_encode_frame (o : FrameOracle) (frame : Option Int) (s : EngineState) : EncResult :=
  match nvenc_submit o frame s with
  | SubmitOut.assertFail => EncResult.assertFail
  | SubmitOut.early code s' => EncResult.earlyRet code s'
  | SubmitOut.go cur s' =>
    match nvenc_queue_updates o cur s' with
    | SubmitOut.assertFail => EncResult.assertFail
    | SubmitOut.early code s'' => EncResult.earlyRet code s''
    | SubmitOut.go cur2 s'' => nvenc_gate o cur2.isSome s''

theorem nvenc_submit_go_isSome (o : FrameOracle) (frame : Option Int) (s : EngineState)
    (cur : Option Nat) (mid : EngineState)
    (h : nvenc_submit o frame s = SubmitOut.go cur mid) :
    cur.isSome = frame.isSome := by
  cases frame with
  | none =>
    simp only [nvenc_submit] at h
    cases h
    rfl
  | some pts =>
    simp only [nvenc_submit] at h
    cases hfi : find_free_input s with
    | none => rw [hfi] at h; cases h
    | some i =>
      rw [hfi] at h
      by_cases hm : o.mapOk = true
      · by_cases hf : o.fmtOk = true
        · by_cases hc : o.copyOk = true
          · by_cases hu : o.unmapOk = true
            · simp only [hm, hf, hc, hu, not_true, if_neg, if_false, ite_false] at h
              cases hfo : find_free_output { s with inputLocks := s.inputLocks.set i 1 } with
              | none => rw [hfo] at h; cases h
              | some j =>
                rw [hfo] at h
                by_cases hr : (timestamp_queue_enqueue o.tsAllocOk
                    { s with inputLocks := s.inputLocks.set i 1,
                             outInputRef := s.outInputRef.set j i }.timestamp_list pts).1 = 0
                · simp only [hr, ne_eq, not_true, if_neg, if_false, ite_false,
                    not_false_eq_true, ite_true] at h
                  cases h
                  rfl
                · simp only [ne_eq, hr, not_false_eq_true, if_pos, ite_true] at h
                  cases h
            · simp only [hm, hf, hc, hu, not_true, not_false_eq_true, if_neg, if_pos,
                ite_true, ite_false] at h
              cases h
          · simp only [hm, hf, hc, not_true, not_false_eq_true, if_neg, if_pos,
              ite_true, ite_false] at h
            cases h
        · simp only [hm, hf, not_true, not_false_eq_true, if_neg, if_pos,
            ite_true, ite_false] at h
          cases h
      · simp only [hm, not_false_eq_true, if_pos, ite_true] at h
        cases h

theorem nvenc_queue_updates_go_cur (o : FrameOracle) (cur : Option Nat) (s : EngineState)
    (cur2 : Option Nat) (s2 : EngineState)
    (h : nvenc_queue_updates o cur s = SubmitOut.go cur2 s2) :
    cur2 = cur := by
  cases cur with
  | none =>
    cases hes : o.encStatus with
    | needMoreInput => simp only [nvenc_queue_updates, hes] at h; cases h; rfl
    | otherError => simp only [nvenc_queue_updates, hes] at h; cases h
    | success =>
      simp only [nvenc_queue_updates, hes] at h
      cases hd : drain_inflight o.queueAllocOk s.output_surface_queue.count
          s.output_surface_queue s.output_surface_ready_queue with
      | none => rw [hd] at h; cases h
      | some t =>
        obtain ⟨res, qin', qrdy'⟩ := t
        rw [hd] at h
        by_cases hres : res = 0
        · simp only [hres, ne_eq, not_true, if_neg, ite_false, not_false_eq_true,
            ite_true] at h
          cases h
          rfl
        · simp only [ne_eq, hres, not_false_eq_true, if_pos, ite_true] at h
          cases h
  | some j =>
    cases hes : o.encStatus with
    | needMoreInput =>
      simp only [nvenc_queue_updates, hes] at h
      by_cases hr : (out_surf_queue_enqueue o.queueAllocOk s.output_surface_queue j).1 = 0
      · simp only [hr, ne_eq, not_true, ite_false, not_false_eq_true, ite_true] at h
        cases h
        rfl
      · simp only [ne_eq, hr, not_false_eq_true, ite_true] at h
        cases h
    | otherError => simp only [nvenc_queue_updates, hes] at h; cases h
    | success =>
      simp only [nvenc_queue_updates, hes] at h
      cases hd : drain_inflight o.queueAllocOk s.output_surface_queue.count
          s.output_surface_queue s.output_surface_ready_queue with
      | none => rw [hd] at h; cases h
      | some t =>
        obtain ⟨res, qin', qrdy'⟩ := t
        rw [hd] at h
        by_cases hres : res = 0
        · simp only [hres, ne_eq, not_true, ite_false, not_false_eq_true, ite_true] at h
          by_cases hr2 : (out_surf_queue_enqueue o.queueAllocOk
              { s with output_surface_queue := qin',
                       output_surface_ready_queue := qrdy' }.output_surface_ready_queue j).1 = 0
          · simp only [hr2, ne_eq, not_true, ite_false, not_false_eq_true, ite_true] at h
            cases h
            rfl
          · simp only [ne_eq, hr2, not_false_eq_true, ite_true] at h
            cases h
        · simp only [ne_eq, hres, not_false_eq_true, ite_true] at h
          cases h

/-- C1 counterexample oracle: the nvEncMapInputResource call fails. -/
def c1_o0 : FrameOracle :=
  ⟨false, true, true, true, true, EncStatus.success, true, ⟨true, true, 3, true, NvPicType.ppic⟩⟩

/-- C1 counterexample state: one ready surface queued, buffering delay 0, a
free input surface available. -/
def c1_s0 : EngineState :=
  ⟨1, [0], [true], [0], ⟨[], 0, 0, 0⟩, ⟨[0, 0, 0, 0], 1, 1, 4⟩, ⟨[5, 0, 0, 0], 1, 1, 4⟩,
   -2, 0, 2⟩

/-- C1 counterexample: a call with an input frame whose resource mapping
fails returns 0 without writing got_packet, even though the ready queue is
non-empty and ready.count + in_flight.count meets the buffering delay — so
the gate condition holds yet no packet is reported, refuting the claim's
"if and only if" as stated over every call. -/
theorem c1_counterexample :
    nvenc_encode_frame c1_o0 (some 7) c1_s0
        = EncResult.earlyRet 0 { c1_s0 with inputLocks := [1] } ∧
    (nvenc_encode_frame c1_o0 (some 7) c1_s0).gotPacket = false ∧
    c1_s0.output_surface_ready_queue.count ≠ 0 ∧
    c1_s0.output_surface_ready_queue.count + c1_s0.output_surface_queue.count
        ≥ c1_s0.buffer_delay := by
  refine ⟨by decide, by decide, by decide, by decide⟩

/-- C1 (amended): on every call that reaches the emission gate — submission
and queue maintenance both complete without an early return — got_packet is
written, and it is 1 exactly when the gate condition holds on the
post-maintenance state: the ready queue is non-empty and (no frame was passed
this call or ready.count + in_flight.count ≥ the buffering delay).  When the
gate condition fails, no packet is produced and the state is unchanged by the
gate.  Calls that return early (mapping, format, copy, unmap, allocation or
encode failures) never write got_packet, so they report no packet regardless
of the queue state. -/
theorem c1_emission_gate_amended (o : FrameOracle) (frame : Option Int) (s : EngineState)
    (cur : Option Nat) (mid : EngineState) (cur2 : Option Nat) (gmid : EngineState)
    (got : Bool) (pkt : Option Pkt) (sf : EngineState)
    (h1 : nvenc_submit o frame s = SubmitOut.go cur mid)
    (h2 : nvenc_queue_updates o cur mid = SubmitOut.go cur2 gmid)
    (h3 : nvenc_encode_frame o frame s = EncResult.done got pkt sf) :
    got = emission_gate frame.isSome gmid ∧
    (emission_gate frame.isSome gmid = false → pkt = none ∧ sf = gmid) := by
  have hc : cur2 = cur := nvenc_queue_updates_go_cur o cur mid cur2 gmid h2
  have hiso : cur.isSome = frame.isSome := nvenc_submit_go_isSome o frame s cur mid h1
  rw [nvenc_encode_frame, h1] at h3
  dsimp only at h3
  rw [h2] at h3
  dsimp only at h3
  rw [hc, hiso] at h3
  by_cases hg : emission_gate frame.isSome gmid = true
  · rw [nvenc_gate, if_pos hg] at h3
    cases hdq : out_surf_queue_dequeue gmid.output_surface_ready_queue with
    | none => rw [hdq] at h3; dsimp only at h3; cases h3
    | some p =>
      obtain ⟨oj, qrdy'⟩ := p
      cases oj with
      | none => rw [hdq] at h3; dsimp only at h3; cases h3
      | some j =>
        rw [hdq] at h3
        dsimp only at h3
        cases hpo : process_output_surface o.po gmid.frameIntervalP
            ⟨gmid.timestamp_list, gmid.last_dts⟩ with
        | none =>
          rw [hpo] at h3
          dsimp only at h3
          cases h3
        | some t =>
          obtain ⟨res, pkt0, ps⟩ := t
          rw [hpo] at h3
          dsimp only at h3
          by_cases hres : res = 0
          · simp only [hres, ne_eq, not_true, ite_false, not_false_eq_true, ite_true] at h3
            by_cases hlk : gmid.inputLocks.getD (gmid.outInputRef.getD j 0) 0 = 0
            · rw [if_pos hlk] at h3; cases h3
            · rw [if_neg hlk] at h3
              cases h3
              exact ⟨hg.symm, fun hfalse => absurd hg (by rw [hfalse]; exact Bool.false_ne_true)⟩
          · simp only [ne_eq, hres, not_false_eq_true, ite_true] at h3
            cases h3
  · have hg' : emission_gate frame.isSome gmid = false := Bool.eq_false_iff.mpr hg
    rw [nvenc_gate, if_neg hg] at h3
    cases h3
    exact ⟨hg'.symm, fun _ => ⟨rfl, rfl⟩⟩

/-- C1 witness oracle: every external call succeeds. -/
def c1_w_o : FrameOracle :=
  ⟨true, true, true, true, true, EncStatus.success, true, ⟨true, true, 3, true, NvPicType.ppic⟩⟩

/-- C1 witness state: empty in-flight and ready queues. -/
def c1_w_s : EngineState :=
  ⟨1, [0], [false], [0], ⟨[], 0, 0, 0⟩, ⟨[], 0, 0, 0⟩, ⟨[], 0, 0, 0⟩, -2, 0, 2⟩

theorem c1_amended_witness :
    false = emission_gate (none : Option Int).isSome c1_w_s ∧
    ((none : Option Pkt) = none ∧ c1_w_s = c1_w_s) :=
  ⟨(c1_emission_gate_amended c1_w_o none c1_w_s none c1_w_s none c1_w_s false none c1_w_s
      (by decide) (by decide) (by decide)).1,
   (c1_emission_gate_amended c1_w_o none c1_w_s none c1_w_s none c1_w_s false none c1_w_s
      (by decide) (by decide) (by decide)).2 (by decide)⟩

/-- All output surfaces currently held by the engine's two queues, in-flight
entries before ready entries. -/
def queueEntries (s : EngineState) : List Nat :=
  s.output_surface_queue.toList ++ s.output_surface_ready_queue.toList

/-- The state invariant nvenc_encode_frame maintains over the surface
machinery: both queues are well formed; while any surface is queued the
timestamp list is allocated (every queued surface pushed one pts); every
queued output surface's input back-reference carries a non-zero lock count
(so the retrieval-path `av_assert0(lockCount)` cannot fire); and distinct
queued output surfaces reference distinct input surfaces (an input surface
is only acquired while unlocked). -/
structure EngineInv (s : EngineState) : Prop where
  hin : s.output_surface_queue.WF
  hrdy : s.output_surface_ready_queue.WF
  hts : queueEntries s ≠ [] → s.timestamp_list.WFA
  hlock : ∀ j ∈ queueEntries s, s.inputLocks.getD (s.outInputRef.getD j 0) 0 ≠ 0
  href : (queueEntries s).Pairwise
    (fun x y => s.outInputRef.getD x 0 ≠ s.outInputRef.getD y 0)

/-- A flush-call oracle on which the device accepts the end-of-stream
submission and every host allocation and retrieval step succeeds. -/
def GoodFlushOracle (o : FrameOracle) : Prop :=
  o.encStatus = EncStatus.success ∧ o.queueAllocOk = true ∧
  o.po.sliceAllocOk = true ∧ o.po.lockOk = true ∧ o.po.allocPacketOk = true ∧
  o.po.picType ≠ NvPicType.unknown

/-- With successful allocations, the drain loop moves every in-flight entry
onto the end of the ready queue in FIFO order and returns 0. -/
theorem drain_inflight_spec :
    ∀ (n : Nat) (a b : NvencDataList Nat), a.WF → b.WF → a.count = n →
      ∃ a' b', drain_inflight true n a b = some (0, a', b') ∧
        a'.count = 0 ∧ a'.WF ∧ b'.WF ∧ b'.toList = b.toList ++ a.toList := by
  intro n
  induction n with
  | zero =>
    intro a b hwa hwb hc
    exact ⟨a, b, rfl, hc, hwa, hwb,
      by rw [NvencDataList.toList_eq_nil hc, List.append_nil]⟩
  | succ m ih =>
    intro a b hwa hwb hc
    have hcz : a.count ≠ 0 := by omega
    have hwaa : a.WFA := by
      rcases hwa with htriv | h
      · exact absurd htriv.2.2.1 hcz
      · exact h
    obtain ⟨hdeq, htail, hwa2⟩ := dequeue_of_count_pos hwaa hcz
    obtain ⟨hr0, hrw, hrt⟩ := data_queue_enqueue_spec hwb (a.toList.headD default)
    have hstep : drain_inflight true (m + 1) a b
        = drain_inflight true m { a with count := a.count - 1 }
            (data_queue_enqueue true b (a.toList.headD default)).2 := by
      simp only [drain_inflight, if_neg hcz, out_surf_queue_dequeue, hdeq,
        out_surf_queue_enqueue]
      rw [if_neg (not_not_intro hr0)]
    obtain ⟨a', b', heq, ha'c, ha'w, hb'w, hb't⟩ :=
      ih { a with count := a.count - 1 } _ (Or.inr hwa2) (Or.inr hrw)
        (by show a.count - 1 = m; omega)
    refine ⟨a', b', ?_, ha'c, ha'w, hb'w, ?_⟩
    · rw [hstep, heq]
    · rw [hb't, hrt, htail, List.append_assoc, List.singleton_append,
        ← list_eq_headD_cons_tail default (NvencDataList.toList_ne_nil hcz)]

/-- When the slice-offset allocation, the bitstream lock and the packet
allocation succeed and the reported picture type is known, and the timestamp
list is allocated, process_output_surface succeeds: it emits a packet, pops
one timestamp and records the packet's dts, and the popped timestamp list is
still allocated. -/
theorem process_output_surface_good (po : POOracle) (fip : Int) (ts : NvencDataList Int)
    (ld : Int) (hsl : po.sliceAllocOk = true) (hlk : po.lockOk = true)
    (hap : po.allocPacketOk = true) (hpt : po.picType ≠ NvPicType.unknown) (hw : ts.WFA) :
    ∃ pkt ts', process_output_surface po fip ⟨ts, ld⟩ = some (0, some pkt, ⟨ts', pkt.dts⟩)
      ∧ ts'.WFA := by
  obtain ⟨dts0, ts', hdeq, hw'⟩ :
      ∃ dts0 ts', timestamp_queue_dequeue ts = some (dts0, ts') ∧ ts'.WFA := by
    by_cases hc : ts.count = 0
    · have h := dequeue_of_count_zero hw hc
      exact ⟨AV_NOPTS_VALUE, ts, by simp only [timestamp_queue_dequeue, h], hw⟩
    · obtain ⟨h1, _, h3⟩ := dequeue_of_count_pos hw hc
      exact ⟨ts.toList.headD default, { ts with count := ts.count - 1 },
        by simp only [timestamp_queue_dequeue, h1], h3⟩
  refine ⟨⟨po.outputTimeStamp,
      dts_force_monotonic ld (dts_clamp_to_pts po.outputTimeStamp (dts_b_frame_offset fip dts0)),
      po.picType == NvPicType.idr⟩, ts', ?_, hw'⟩
  simp only [process_output_surface, hsl, hlk, hap, not_true, Bool.not_eq_true,
    ite_false, if_neg hpt]
  rw [hdeq]

/-- A flush call on an engine whose queues are both empty is a no-op: it
reports no packet and leaves the state unchanged. -/
theorem flush_step_zero (o : FrameOracle) (hes : o.encStatus = EncStatus.success)
    (s : EngineState) (h0 : s.output_surface_queue.count = 0)
    (h1 : s.output_surface_ready_queue.count = 0) :
    nvenc_encode_frame o none s = EncResult.done false none s := by
  have hq : nvenc_queue_updates o none s = SubmitOut.go none s := by
    simp only [nvenc_queue_updates, hes, h0, drain_inflight]
    rw [if_neg (fun h => h rfl)]
  have hg : nvenc_gate o false s = EncResult.done false none s := by
    have hgf : emission_gate false s = false := by
      simp [emission_gate, h1]
    rw [nvenc_gate, hgf]
    simp
  calc nvenc_encode_frame o none s
      = (match nvenc_queue_updates o none s with
          | SubmitOut.assertFail => EncResult.assertFail
          | SubmitOut.early code s2 => EncResult.earlyRet code s2
          | SubmitOut.go cur2 s2 => nvenc_gate o cur2.isSome s2) := rfl
    _ = EncResult.done false none s := by rw [hq]; exact hg

/-- The engine invariant survives one retrieval: after draining the in-flight
queue into the ready queue and popping its oldest entry — decrementing that
entry's input lock and clearing its busy flag — the invariant holds again. -/
theorem engine_inv_after_pop (s : EngineState) (a' b' : NvencDataList Nat)
    (ts' : NvencDataList Int) (d : Int)
    (ha'c : a'.count = 0) (ha'w : a'.WF)
    (hrdy' : ({ b' with count := b'.count - 1 } : NvencDataList Nat).WFA)
    (hts' : ts'.WFA)
    (htl : ({ b' with count := b'.count - 1 } : NvencDataList Nat).toList = b'.toList.tail)
    (hperm : b'.toList.Perm (queueEntries s))
    (hbne : b'.toList ≠ [])
    (hlock : ∀ j ∈ queueEntries s, s.inputLocks.getD (s.outInputRef.getD j 0) 0 ≠ 0)
    (href : (queueEntries s).Pairwise
      (fun x y => s.outInputRef.getD x 0 ≠ s.outInputRef.getD y 0)) :
    EngineInv { s with
        inputLocks := s.inputLocks.set (s.outInputRef.getD (b'.toList.headD default) 0)
          (s.inputLocks.getD (s.outInputRef.getD (b'.toList.headD default) 0) 0 - 1),
        outBusy := s.outBusy.set (b'.toList.headD default) false,
        output_surface_queue := a',
        output_surface_ready_queue := { b' with count := b'.count - 1 },
        timestamp_list := ts',
        last_dts := d } := by
  have hbcons : b'.toList = b'.toList.headD default :: b'.toList.tail :=
    list_eq_headD_cons_tail default hbne
  have hsymm : ∀ {x y : Nat},
      s.outInputRef.getD x 0 ≠ s.outInputRef.getD y 0 →
      s.outInputRef.getD y 0 ≠ s.outInputRef.getD x 0 := fun h => Ne.symm h
  have hpw : b'.toList.Pairwise
      (fun x y => s.outInputRef.getD x 0 ≠ s.outInputRef.getD y 0) :=
    (List.Perm.pairwise_iff hsymm hperm).mpr href
  rw [hbcons] at hpw
  obtain ⟨hhead, htailpw⟩ := List.pairwise_cons.mp hpw
  refine ⟨ha'w, Or.inr hrdy', fun _ => hts', ?_, ?_⟩
  · intro j hj
    dsimp only [queueEntries] at hj
    rw [NvencDataList.toList_eq_nil ha'c, htl, List.nil_append] at hj
    show (s.inputLocks.set (s.outInputRef.getD (b'.toList.headD default) 0)
        (s.inputLocks.getD (s.outInputRef.getD (b'.toList.headD default) 0) 0 - 1)).getD
        (s.outInputRef.getD j 0) 0 ≠ 0
    rw [getD_set_ne s.inputLocks (hhead j hj) _ _]
    refine hlock j (hperm.mem_iff.mp ?_)
    rw [hbcons]
    exact List.mem_cons_of_mem _ hj
  · dsimp only [queueEntries]
    rw [NvencDataList.toList_eq_nil ha'c, htl, List.nil_append]
    exact htailpw

/-- A flush call on an engine holding at least one queued surface and
satisfying the engine invariant retrieves exactly one packet: the in-flight
queue is drained into the ready queue, the oldest ready surface is popped,
the total number of queued surfaces drops by one, and the invariant is
maintained. -/
theorem flush_step_pos (o : FrameOracle) (hGood : GoodFlushOracle o) (s : EngineState)
    (hinv : EngineInv s)
    (hpos : s.output_surface_queue.count + s.output_surface_ready_queue.count ≠ 0) :
    ∃ pkt s', nvenc_encode_frame o none s = EncResult.done true pkt s' ∧
      EngineInv s' ∧
      s'.output_surface_queue.count + s'.output_surface_ready_queue.count
        = s.output_surface_queue.count + s.output_surface_ready_queue.count - 1 := by
  obtain ⟨hes, hqa, hsl, hlk, hap, hpt⟩ := hGood
  obtain ⟨hin, hrdy, hts, hlock, href⟩ := hinv
  obtain ⟨a', b', hdrain, ha'c, ha'w, hb'w, hb't⟩ :=
    drain_inflight_spec s.output_surface_queue.count s.output_surface_queue
      s.output_surface_ready_queue hin hrdy rfl
  have hq : nvenc_queue_updates o none s
      = SubmitOut.go none
          { s with output_surface_queue := a', output_surface_ready_queue := b' } := by
    simp only [nvenc_queue_updates, hes, hqa, hdrain]
    rw [if_neg (fun h => h rfl)]
  have hb'cnt : b'.count
      = s.output_surface_ready_queue.count + s.output_surface_queue.count := by
    have h1 := NvencDataList.toList_length b'
    rw [hb't, List.length_append, NvencDataList.toList_length,
      NvencDataList.toList_length] at h1
    omega
  have hb'pos : b'.count ≠ 0 := by omega
  have hb'wfa : b'.WFA := by
    rcases hb'w with htriv | h
    · exact absurd htriv.2.2.1 hb'pos
    · exact h
  obtain ⟨hdeq, htl, hwrdy'⟩ := dequeue_of_count_pos hb'wfa hb'pos
  have hents : queueEntries s ≠ [] := by
    intro hcon
    have hlen := congrArg List.length hcon
    simp only [queueEntries, List.length_append, NvencDataList.toList_length,
      List.length_nil] at hlen
    omega
  have htswfa := hts hents
  obtain ⟨pkt, ts', hpo, hts'wfa⟩ :=
    process_output_surface_good o.po s.frameIntervalP s.timestamp_list s.last_dts
      hsl hlk hap hpt htswfa
  have hbne : b'.toList ≠ [] := NvencDataList.toList_ne_nil hb'pos
  have hbcons : b'.toList = b'.toList.headD default :: b'.toList.tail :=
    list_eq_headD_cons_tail default hbne
  have hperm : b'.toList.Perm (queueEntries s) := by
    rw [hb't, queueEntries]
    exact List.perm_append_comm
  have hj0mem : b'.toList.headD default ∈ queueEntries s := by
    refine hperm.mem_iff.mp ?_
    rw [hbcons]
    exact List.mem_cons_self _ _
  have hlockj0 : ¬ s.inputLocks.getD
      (s.outInputRef.getD (b'.toList.headD default) 0) 0 = 0 :=
    hlock _ hj0mem
  have hgate : emission_gate false
      { s with output_surface_queue := a', output_surface_ready_queue := b' } = true := by
    simp [emission_gate, hb'pos]
  refine ⟨some pkt,
    { s with
        inputLocks := s.inputLocks.set (s.outInputRef.getD (b'.toList.headD default) 0)
          (s.inputLocks.getD (s.outInputRef.getD (b'.toList.headD default) 0) 0 - 1),
        outBusy := s.outBusy.set (b'.toList.headD default) false,
        output_surface_queue := a',
        output_surface_ready_queue := { b' with count := b'.count - 1 },
        timestamp_list := ts',
        last_dts := pkt.dts }, ?_, ?_, ?_⟩
  · calc nvenc_encode_frame o none s
        = (match nvenc_queue_updates o none s with
            | SubmitOut.assertFail => EncResult.assertFail
            | SubmitOut.early code s2 => EncResult.earlyRet code s2
            | SubmitOut.go cur2 s2 => nvenc_gate o cur2.isSome s2) := rfl
      _ = nvenc_gate o false
            { s with output_surface_queue := a', output_surface_ready_queue := b' } := by
          rw [hq]
          rfl
      _ = _ := by
          rw [nvenc_gate, if_pos hgate]
          dsimp only [out_surf_queue_dequeue]
          rw [hdeq]
          dsimp only
          rw [hpo]
          dsimp only
          rw [if_neg (fun h => h rfl), if_neg hlockj0]
  · exact engine_inv_after_pop s a' b' ts' pkt.dts ha'c ha'w hwrdy' hts'wfa htl
      hperm hbne hlock href
  · show a'.count + (b'.count - 1)
        = s.output_surface_queue.count + s.output_surface_ready_queue.count - 1
    omega

/-- `n` consecutive flush calls (calls with an absent frame) against the same
call oracle, threading the engine state; an assertion failure or an early
return stops the iteration with `none`. -/
def flush_iter (o : FrameOracle) : Nat → EngineState → Option EngineState
  | 0, s => some s
  | n + 1, s =>
    match nvenc_encode_frame o none s with
    | EncResult.done _ _ s' => flush_iter o n s'
    | _ => none

/-- C5: after end-of-stream, in any run of flush calls whose oracle accepts
the end-of-stream submission (successful encode status and allocations),
within as many calls as there are queued surfaces the engine reaches a state
whose in-flight and ready queues are both empty; from that state every
further accepted flush call reports no packet produced and leaves the state
— in particular both empty queues — unchanged. -/
theorem c5_flush_drains_and_stays_empty (o : FrameOracle) (hGood : GoodFlushOracle o)
    (n : Nat) :
    ∀ s : EngineState, EngineInv s →
      s.output_surface_queue.count + s.output_surface_ready_queue.count ≤ n →
      ∃ s', flush_iter o n s = some s' ∧
        s'.output_surface_queue.count = 0 ∧ s'.output_surface_ready_queue.count = 0 ∧
        ∀ o2, GoodFlushOracle o2 →
          nvenc_encode_frame o2 none s' = EncResult.done false none s' := by
  induction n with
  | zero =>
    intro s _ hn
    have h0 : s.output_surface_queue.count = 0 := by omega
    have h1 : s.output_surface_ready_queue.count = 0 := by omega
    exact ⟨s, rfl, h0, h1, fun o2 hg2 => flush_step_zero o2 hg2.1 s h0 h1⟩
  | succ m ih =>
    intro s hinv hn
    by_cases h0 : s.output_surface_queue.count + s.output_surface_ready_queue.count = 0
    · have hq0 : s.output_surface_queue.count = 0 := by omega
      have hr0 : s.output_surface_ready_queue.count = 0 := by omega
      have hz := flush_step_zero o hGood.1 s hq0 hr0
      obtain ⟨s', he, hc1, hc2, hstay⟩ := ih s hinv (by omega)
      refine ⟨s', ?_, hc1, hc2, hstay⟩
      simp only [flush_iter, hz]
      exact he
    · obtain ⟨pkt, s1, hstep, hinv1, hcnt⟩ := flush_step_pos o hGood s hinv h0
      obtain ⟨s', he, hc1, hc2, hstay⟩ := ih s1 hinv1 (by omega)
      refine ⟨s', ?_, hc1, hc2, hstay⟩
      simp only [flush_iter, hstep]
      exact he

/-- C5 witness oracle: the device accepts the flush submission and every
allocation and retrieval step succeeds. -/
def c5_w_o : FrameOracle :=
  ⟨true, true, true, true, true, EncStatus.success, true, ⟨true, true, 9, true, NvPicType.idr⟩⟩

/-- C5 witness state: output surface 2 sits in the ready queue, its input
surface 1 locked, with the matching pushed timestamp 5. -/
def c5_w_s : EngineState :=
  ⟨4, [0, 1, 0, 0], [false, false, true, false], [0, 0, 1, 0], ⟨[], 0, 0, 0⟩,
   ⟨[2, 0, 0, 0], 1, 1, 4⟩, ⟨[5, 0, 0, 0], 1, 1, 4⟩, -2, 0, 2⟩

/-- C5 witness final state: both queues empty, the lock released, the busy
flag cleared, the timestamp popped and last_dts advanced to the emitted 4. -/
def c5_w_sf : EngineState :=
  ⟨4, [0, 0, 0, 0], [false, false, false, false], [0, 0, 1, 0], ⟨[], 0, 0, 0⟩,
   ⟨[2, 0, 0, 0], 1, 0, 4⟩, ⟨[5, 0, 0, 0], 1, 0, 4⟩, 4, 0, 2⟩

theorem c5_witness :
    flush_iter c5_w_o 1 c5_w_s = some c5_w_sf ∧
    c5_w_sf.output_surface_queue.count = 0 ∧
    c5_w_sf.output_surface_ready_queue.count = 0 ∧
    nvenc_encode_frame c5_w_o none c5_w_sf = EncResult.done false none c5_w_sf := by
  obtain ⟨s', h1, h2, h3, h4⟩ :=
    c5_flush_drains_and_stays_empty c5_w_o ⟨rfl, rfl, rfl, rfl, rfl, by decide⟩ 1 c5_w_s
      ⟨Or.inl (by decide),
       Or.inr ⟨⟨2, by decide, rfl⟩, rfl, by decide, by decide⟩,
       fun _ => ⟨⟨2, by decide, rfl⟩, rfl, by decide, by decide⟩,
       by decide, by decide⟩
      (by decide)
  have hconc : flush_iter c5_w_o 1 c5_w_s = some c5_w_sf := by decide
  rw [h1] at hconc
  obtain rfl := Option.some.inj hconc
  exact ⟨h1, h2, h3, h4 c5_w_o ⟨rfl, rfl, rfl, rfl, rfl, by decide⟩⟩
